import Mathlib

/-!
# Memory Hub — verification of the session-sync engine and its satellites

A shallow embedding, in Lean 4, of the parts of the `memory_hub` Python
package that the specification's claims are about:

* `store.py` — `parse_context_stamp`, `bump_memory_version`,
  `upsert_role_delta`, `detect_conflicts`, `insert_open_loops`,
  `close_open_loops`, `mark_catalog_job_failed`, consistency links,
  sync-audit rows;
* `sync.py` — `session_sync_push`, `session_sync_resolve_conflict`
  (all three strategies), delta normalisation (`_normalize_role_deltas`,
  `_slug`);
* `validation.py` — `validate_push_payload`;
* `policy.py` — `truncate_to_budget`, `build_context_brief`;
* `catalog_indexer.py` — `extract_imports` and its two extraction paths;
* `drift.py` — `detect_drift` with the `git_diff` and `hash_compare`
  methods.

Modelling conventions, used consistently below:

* Python `str` values that the code slices, measures or iterates over
  are modelled as `List Char` (one element per code point, exactly
  Python's indexing unit); identifier-like strings that are only
  compared or trimmed stay Lean `String`s.
* `sqlite3` tables are lists of rows in insertion order.  Wall-clock
  timestamps (`now_utc`) and uuid-based identifiers are both modelled by
  a single strictly increasing per-store counter `next_seq`: row A was
  written before row B iff A's sequence number is smaller.  (Within one
  transaction real timestamps may collide, which would make SQLite's
  `ORDER BY ... created_at DESC` tie-breaking unspecified; the model
  fixes the linearisation by insertion order.)
* Role-memory values are opaque to the engine (`value_json` blobs); they
  are modelled by the inductive `Value`, whose `json` constructor
  carries the client's serialised blob verbatim and whose other
  constructors are the two object shapes the engine itself builds
  (decision entries and `merge_note` resolutions).
* `BusinessError` is modelled by its stable `error_code`; messages and
  `details` payloads are presentation-only and elided.
* Python floats that only pass through the engine (`confidence`, drift
  scores) are modelled as `Rat`; the properties proved about them
  (range bounds, pass-through equality) are insensitive to rounding.
* The sync-audit rows keep the tool direction and `error_code`; the
  verbatim request/response JSON echoes are elided.
* All state is partitioned by `project_id` with no sharing across
  projects, so the `project_id` column and its validation are dropped;
  one `EngineState` is one project's `memory.db`.
-/

namespace MemoryHub

/-! ## Python string primitives

Python semantics for the handful of `str` methods the embedded code
uses: `strip`, `lower`, and `int()` conversion.  Strings are lists of
code points here. -/

/-- Characters removed by Python's `str.strip()` (ASCII whitespace; the
code never feeds it exotic unicode spacing). -/
def pyIsSpace (c : Char) : Bool :=
  c == ' ' || c == '\t' || c == '\n' || c == '\r' || c == '\x0b' || c == '\x0c'

/-- Python `str.strip()` on a list of code points. -/
def pyStripChars (l : List Char) : List Char :=
  ((l.dropWhile pyIsSpace).reverse.dropWhile pyIsSpace).reverse

/-- Python `str.strip()` on a Lean `String`. -/
def py_strip (s : String) : String :=
  (pyStripChars s.toList).asString

/-- Python `str.lower()` (the code only lowercases ASCII). -/
def pyLowerChars (l : List Char) : List Char :=
  l.map Char.toLower

/-- Numeric value of a decimal digit character. -/
def digitVal (c : Char) : Nat :=
  c.toNat - '0'.toNat

mutual

/-- Digit-run scanner of Python `int(str)`: after the first digit,
accepts further digits with single underscores allowed only between
digits (an underscore must be followed by a digit). -/
def pyDigitsLoop : List Char → Nat → Option Nat
  | [], acc => some acc
  | c :: rest, acc =>
    if c.isDigit then pyDigitsLoop rest (acc * 10 + digitVal c)
    else if c = '_' then pyAfterUnderscore rest acc
    else none

/-- Continuation of `pyDigitsLoop` right after an underscore. -/
def pyAfterUnderscore : List Char → Nat → Option Nat
  | [], _ => none
  | c :: rest, acc =>
    if c.isDigit then pyDigitsLoop rest (acc * 10 + digitVal c) else none

end

/-- Unsigned part of Python `int(str)`: a non-empty digit run. -/
def pyParseDigits : List Char → Option Nat
  | [] => none
  | c :: rest => if c.isDigit then pyDigitsLoop rest (digitVal c) else none

/-- Signed part of Python `int(str)`, applied after stripping. -/
def pyIntSigned : List Char → Option Int
  | [] => none
  | c :: rest =>
    if c = '+' then (pyParseDigits rest).map Int.ofNat
    else if c = '-' then (pyParseDigits rest).map (fun m => -(m : Int))
    else (pyParseDigits (c :: rest)).map Int.ofNat

/-- Python `int(str)` on code points: strip whitespace, optional sign,
then a digit run (with underscores between digits); `none` models the
`ValueError`. -/
def pyIntOfChars (l : List Char) : Option Int :=
  pyIntSigned (pyStripChars l)

/-! ### Decimal printing and the parse/print round trip

`Nat.repr` is core's fuel-based printer; `decChars` is the structurally
recursive decimal printer we relate it to, so that the round-trip lemma
`pyIntOfChars (Nat.repr n).toList = some n` can be proved by induction. -/

/-- Most-significant-first decimal digits of a natural number. -/
def decChars (n : Nat) : List Char :=
  if _h : n < 10 then [Nat.digitChar n]
  else decChars (n / 10) ++ [Nat.digitChar (n % 10)]
decreasing_by exact Nat.div_lt_self (by omega) (by omega)

/-! ## Errors and context stamps (`errors.py`, `store.py`)

`BusinessError` is modelled by its stable `error_code`. -/

/-- A `BusinessError`, reduced to its stable `error_code` (messages,
`details` and `retryable` are presentation-only). -/
structure BErr where
  error_code : String
deriving DecidableEq, Repr

/-- A client-sent `context_stamp` argument: `null`, the structured form
`{memory_version: N}` (where `none` models a missing or non-integer
`memory_version` field), or the legacy string form. -/
inductive ContextStamp where
  | null
  | stamp (memory_version : Option Int)
  | legacy (s : String)
deriving DecidableEq, Repr

/-- String branch of `parse_context_stamp`, applied to the stripped and
lowered code points of the legacy stamp. -/
def parse_legacy_stamp (stamp : List Char) : Except BErr (Option Nat) :=
  match stamp with
  | [] => .error { error_code := "INVALID_CONTEXT_STAMP" }
  | c :: rest =>
    if c = 'v' then
      match pyIntOfChars rest with
      | none => .error { error_code := "INVALID_CONTEXT_STAMP" }
      | some v =>
        if v < 0 then .error { error_code := "INVALID_CONTEXT_STAMP" }
        else .ok (some v.toNat)
    else .error { error_code := "INVALID_CONTEXT_STAMP" }

/-- `store.parse_context_stamp`: `None` means force; the structured form
requires a non-negative integer `memory_version`; a legacy string is
stripped, lowered, must start with `v`, and its remainder must parse as
a non-negative Python `int`. -/
def parse_context_stamp : ContextStamp → Except BErr (Option Nat)
  | .null => .ok none
  | .stamp none => .error { error_code := "INVALID_CONTEXT_STAMP" }
  | .stamp (some v) =>
    if v < 0 then .error { error_code := "INVALID_CONTEXT_STAMP" }
    else .ok (some v.toNat)
  | .legacy s => parse_legacy_stamp (pyLowerChars (pyStripChars s.toList))

/-! ## Policy (`policy.py`): token-budget truncation and the context brief

Python strings are lists of code points here, so `len`, slicing and
concatenation are `List.length`, `List.take` and `++`. -/

/-- The literal suffix appended by `truncate_to_budget` when it cuts. -/
def truncation_suffix : List Char := "\n... (truncated)".toList

/-- `policy.truncate_to_budget`: cut `text` to
`max(400, max_tokens * 4)` code points, appending the truncation suffix
when a cut happens. -/
def truncate_to_budget (text : List Char) (max_tokens : Int) : List Char :=
  let max_chars : Int := max 400 (max_tokens * 4)
  if (text.length : Int) ≤ max_chars then text
  else text.take (max_chars - (truncation_suffix.length : Int)).toNat ++ truncation_suffix

/-- A role-memory value as `build_context_brief` renders it: either a
Python `str` (used verbatim) or any other value together with its
`repr()` rendering, which the code interpolates instead. -/
inductive BriefValue where
  | str (s : List Char)
  | other (reprText : List Char)
deriving DecidableEq, Repr

/-- The `value if isinstance(value, str) else repr(value)` rendering. -/
def brief_value_text : BriefValue → List Char
  | .str s => s
  | .other r => r

/-- One `(memory_key, value)` item of a role payload, as the brief
renders it. -/
structure BriefItem where
  memory_key : List Char
  value : BriefValue
deriving DecidableEq, Repr

/-- One role block of `role_payloads`. -/
structure BriefRoleBlock where
  role : List Char
  items : List BriefItem
deriving DecidableEq, Repr

/-- One open loop as the brief renders it. -/
structure BriefLoop where
  loop_id : List Char
  title : List Char
  priority : Int
deriving DecidableEq, Repr

/-- Rendering of one item line `  - {key}: {value_text}`. -/
def item_line (item : BriefItem) : List Char :=
  "  - ".toList ++ item.memory_key ++ ": ".toList ++ brief_value_text item.value

/-- Rendering of one role block: the `- {role}:` header plus either
`  (no items)` or the first six item lines. -/
def role_block_lines (block : BriefRoleBlock) : List (List Char) :=
  ("- ".toList ++ block.role ++ ":".toList) ::
    (if block.items.isEmpty then ["  (no items)".toList]
     else (block.items.take 6).map item_line)

/-- Rendering of one open-loop line `- [{priority}] {title} ({loop_id})`. -/
def loop_line (loop : BriefLoop) : List Char :=
  "- [".toList ++ (Int.repr loop.priority).toList ++ "] ".toList ++
    loop.title ++ " (".toList ++ loop.loop_id ++ ")".toList

/-- The list of lines `build_context_brief` assembles before joining and
truncating.  `handoff_latest` is the rendered `summary` of the latest
handoff packet (`none` when there is no packet, matching the falsy
check in the code). -/
def context_lines (role_payloads : List BriefRoleBlock)
    (open_loops_top : List BriefLoop) (handoff_latest : Option BriefValue) :
    List (List Char) :=
  ["[Context Brief]".toList]
    ++ (if role_payloads.isEmpty then []
        else "Roles:".toList :: role_payloads.flatMap role_block_lines)
    ++ (if open_loops_top.isEmpty then []
        else "Open Loops (Top):".toList :: (open_loops_top.take 3).map loop_line)
    ++ (match handoff_latest with
        | none => []
        | some summary => ["Latest Handoff:".toList, "- ".toList ++ brief_value_text summary])

/-- The joined (pre-truncation) text of the context brief. -/
def render_context_text (role_payloads : List BriefRoleBlock)
    (open_loops_top : List BriefLoop) (handoff_latest : Option BriefValue) :
    List Char :=
  List.intercalate ['\n'] (context_lines role_payloads open_loops_top handoff_latest)

/-- `policy.build_context_brief`: assemble the lines, join them with
newlines, and truncate to the token budget. -/
def build_context_brief (role_payloads : List BriefRoleBlock)
    (open_loops_top : List BriefLoop) (handoff_latest : Option BriefValue)
    (max_tokens : Int) : List Char :=
  truncate_to_budget (render_context_text role_payloads open_loops_top handoff_latest)
    max_tokens

/-- Python's `len(text.encode("utf-8"))`: the UTF-8 byte length of a
string given as code points. -/
def utf8Len (l : List Char) : Nat :=
  (l.map Char.utf8Size).sum

/-! ## Catalog indexer (`catalog_indexer.py`): import extraction

`extract_imports(language, text)` computes two views of the file text:
the result of `ast.parse` + `ast.walk` (for Python) and the captures of
the three fallback regexes.  The embedding carries those two views as
oracles derived from the text: `pythonAst` is the walked node list when
the text parses (`none` on `SyntaxError`), and `regexMatches` the
concatenated captures of `_IMPORT_FROM_RE`, `_IMPORT_SIDE_RE` and
`_REQUIRE_RE`, in pattern order. -/

/-- The `ast.walk` node kinds `_extract_imports_python` inspects: an
`ast.Import` (with its alias names), an `ast.ImportFrom` (whose
`module` is `None` for relative imports like `from . import x`), or any
other node. -/
inductive PyNode where
  | importStmt (aliasNames : List String)
  | importFrom (module : Option String)
  | otherNode
deriving DecidableEq, Repr

/-- A source file's text, as the two views `extract_imports` takes of
it. -/
structure SourceText where
  pythonAst : Option (List PyNode)
  regexMatches : List String
deriving DecidableEq, Repr

/-- One extracted import edge: `(to_module, confidence, source_type)`. -/
structure ImportEntry where
  to_module : String
  confidence : Rat
  source_type : String
deriving DecidableEq, Repr

/-- The entries one walked node contributes: one `(name, 1.0, "ast")`
per `Import` alias, one per `ImportFrom` with a non-null module. -/
def ast_entries_of_node : PyNode → List ImportEntry
  | .importStmt names =>
    names.map fun n => { to_module := n, confidence := 1, source_type := "ast" }
  | .importFrom (some m) => [{ to_module := m, confidence := 1, source_type := "ast" }]
  | .importFrom none => []
  | .otherNode => []

/-- `_extract_imports_python`: empty on `SyntaxError`; otherwise the
entries of all walked nodes in walk order. -/
def _extract_imports_python : Option (List PyNode) → List ImportEntry
  | none => []
  | some nodes => nodes.flatMap ast_entries_of_node

/-- `_extract_imports_inferred`: the stripped, non-empty, deduplicated
regex captures in sorted order, each as `(module, 0.5, "inferred")`. -/
def _extract_imports_inferred (found : List String) : List ImportEntry :=
  let unique_modules :=
    (((found.map py_strip).filter (fun m => m ≠ "")).dedup).insertionSort (· ≤ ·)
  unique_modules.map fun m => { to_module := m, confidence := mkRat 1 2, source_type := "inferred" }

/-- `catalog_indexer.extract_imports`: for Python try the syntactic
extraction and keep it when non-empty; otherwise fall back to the regex
inference. -/
def extract_imports (language : String) (text : SourceText) : List ImportEntry :=
  if language = "python" then
    let imports := _extract_imports_python text.pythonAst
    if imports.isEmpty then _extract_imports_inferred text.regexMatches else imports
  else _extract_imports_inferred text.regexMatches

/-! ## Drift detector (`drift.py`)

`detect_drift` prefers a version-control diff (whose raw output lines
are an environment oracle, as is whether the `git` subprocess succeeds)
and falls back to a content-hash comparison.  File-system dictionaries
(`known_hashes`, and the hashes of the supported files currently on
disk) are association lists keyed by relative path. -/

/-- Python `str.lower()` on a Lean `String`. -/
def py_lower (s : String) : String :=
  (pyLowerChars s.toList).asString

/-- `pathlib.Path(value).suffix`: the extension of the final path
component, empty for extensionless and dot-initial single-dot names. -/
def path_suffix (value : String) : String :=
  let name := (value.splitOn "/").getLastD value
  let parts := name.splitOn "."
  match parts with
  | [] => ""
  | [_] => ""
  | first :: rest =>
    if first = "" ∧ rest.length = 1 then ""
    else "." ++ rest.getLastD ""

/-- `catalog_indexer.SUPPORTED_SUFFIXES`. -/
def SUPPORTED_SUFFIXES : List String := [".py", ".js", ".jsx", ".ts", ".tsx", ".dart"]

/-- `drift._filter_supported_paths`: strip, drop empties and
unsupported suffixes, then `sorted(set(...))`. -/
def _filter_supported_paths (raw_paths : List String) : List String :=
  let normalized := (raw_paths.map py_strip).filter
    (fun v => (v != "") && SUPPORTED_SUFFIXES.contains (py_lower (path_suffix v)))
  (normalized.dedup).insertionSort (· ≤ ·)

/-- `dict.get` on an association list. -/
def dict_get (d : List (String × String)) (k : String) : Option String :=
  (d.find? (fun kv => kv.1 == k)).map (fun kv => kv.2)

/-- A drift report: `method`, changed files, score and denominator. -/
structure DriftResult where
  method : String
  changed_files : List String
  drift_score : Rat
  total_files : Nat
deriving DecidableEq, Repr

/-- `drift._detect_with_hash`: compare `known_hashes` against the
hashes of the supported files currently on disk over the union of both
key sets; `drift_score = changed / max(total_keys, 1)`. -/
def _detect_with_hash (current_hashes known_hashes : List (String × String)) :
    DriftResult :=
  let all_keys := ((known_hashes.map Prod.fst) ++ (current_hashes.map Prod.fst)).dedup
  let sorted_keys := all_keys.insertionSort (· ≤ ·)
  let changed := sorted_keys.filter
    (fun k => dict_get known_hashes k != dict_get current_hashes k)
  let denominator := max all_keys.length 1
  { method := "hash_compare"
    changed_files := changed
    drift_score := (changed.length : Rat) / (denominator : Rat)
    total_files := all_keys.length }

/-- `drift.detect_drift`: on a working `git`, the supported changed
paths over `max(len(known_hashes), 1)` capped at `1.0`; otherwise the
hash comparison. -/
def detect_drift (git_available : Bool) (git_lines : List String)
    (current_hashes known_hashes : List (String × String)) : DriftResult :=
  if git_available then
    let changed := _filter_supported_paths git_lines
    let denominator := max known_hashes.length 1
    { method := "git_diff"
      changed_files := changed
      drift_score := min ((changed.length : Rat) / (denominator : Rat)) 1
      total_files := known_hashes.length }
  else _detect_with_hash current_hashes known_hashes


/-! ## Catalog job queue rows (`store.py`)

Timestamps are natural-number seconds; `now_utc()` becomes an explicit
`now` argument. -/

/-- `status` column of `catalog_jobs`. -/
inductive JobStatus where
  | pending
  | running
  | done
  | failed
deriving DecidableEq, Repr

/-- The payload `session_sync_push` enqueues with a refresh job. -/
structure JobPayload where
  files_touched : List String
  memory_version : Nat
  sync_id : Nat
  session_id : String
deriving DecidableEq, Repr

/-- One `catalog_jobs` row. -/
structure JobRow where
  job_id : Nat
  job_type : String
  payload : JobPayload
  status : JobStatus
  attempts : Nat
  max_attempts : Nat
  last_error : Option String
  next_retry_at : Option Nat
  lease_expires_at : Option Nat
deriving DecidableEq, Repr

/-- `store.mark_catalog_job_failed`: look the job up (no-op when
absent); if `attempts ≥ max_attempts` mark it `failed` with no retry
time, else `pending` with `next_retry_at = now + min(300, 2^attempts)`
(the code tests `status == "failed"`, equivalent to the same attempts
comparison); record the first 1000 characters of the error and clear
the lease. -/
def mark_catalog_job_failed (jobs : List JobRow) (job_id : Nat) (error : String)
    (now : Nat) : List JobRow :=
  match jobs.find? (fun j => j.job_id == job_id) with
  | none => jobs
  | some row =>
    jobs.map fun j =>
      if j.job_id == job_id then
        { j with
          status := if row.attempts ≥ row.max_attempts then .failed else .pending
          last_error := some (error.take 1000)
          next_retry_at :=
            if row.attempts ≥ row.max_attempts then none
            else some (now + min 300 (2 ^ row.attempts))
          lease_expires_at := none }
      else j


/-- A concrete job at its attempt limit (witness input). -/
def sample_failed_job : JobRow :=
  { job_id := 1, job_type := "incremental_refresh",
    payload := { files_touched := [], memory_version := 0, sync_id := 0,
                 session_id := "s" },
    status := .running, attempts := 5, max_attempts := 5,
    last_error := none, next_retry_at := none, lease_expires_at := some 99 }

/-- A concrete job below its attempt limit (witness input). -/
def sample_retry_job : JobRow :=
  { job_id := 2, job_type := "incremental_refresh",
    payload := { files_touched := [], memory_version := 0, sync_id := 0,
                 session_id := "s" },
    status := .running, attempts := 1, max_attempts := 5,
    last_error := none, next_retry_at := none, lease_expires_at := some 99 }


/-! ## Session-sync engine: data model (`store.py`)

One `EngineState` is one project's `memory.db` after `connect`; the
counter `next_seq` supplies uuids and timestamps (see the header). -/

/-- The four roles (`policy.VALID_ROLES`).  A push whose `role_deltas`
name anything else dies in `normalize_role`'s `ValueError` before the
store is even opened, so the typed embedding covers every payload that
reaches the engine. -/
inductive Role where
  | pm
  | architect
  | dev
  | qa
deriving DecidableEq, Repr

/-- A role-memory value.  `null` is Python `None` (also what a missing
`value` field decodes to); `json` is any other client blob carried by
its serialisation (the engine never interprets it); `decision` and
`mergeNote` are the two object shapes the engine itself constructs. -/
inductive Value where
  | null
  | json (raw : String)
  | decision (title : String) (rationale : Option String) (status : String)
  | mergeNote (mine : Value) (theirs : Value) (note : String)
deriving DecidableEq, Repr

/-- One `role_state_versions` row. -/
structure VersionRow where
  version_id : Nat
  role : Role
  memory_key : String
  value : Value
  confidence : Rat
  created_seq : Nat
  created_by_client : String
  source_refs : List Value
  supersedes_version_id : Option Nat
  memory_version : Nat
deriving DecidableEq, Repr

/-- One `role_state_current` row (unique per `(role, memory_key)` by
primary key). -/
structure CurrentRow where
  role : Role
  memory_key : String
  value : Value
  confidence : Rat
  version : Nat
  updated_seq : Nat
  updated_by_client : String
  source_refs : List Value
deriving DecidableEq, Repr

/-- `status` of an open loop. -/
inductive LoopStatus where
  | opened
  | closed
deriving DecidableEq, Repr

/-- One `open_loops` row. -/
structure LoopRow where
  loop_id : String
  title : String
  details : Option String
  status : LoopStatus
  priority : Int
  owner_role : Option String
  created_seq : Nat
  created_by_client : String
  closed_seq : Option Nat
  closed_by_client : Option String
  memory_version : Nat
deriving DecidableEq, Repr

/-- Summary of one inserted loop, as `insert_open_loops` reports it. -/
structure InsertedLoop where
  loop_id : String
  title : String
  priority : Int
deriving DecidableEq, Repr

/-- The handoff summary `session_sync_push` assembles. -/
structure HandoffSummary where
  session_summary : String
  role_delta_count : Nat
  decision_delta_count : Nat
  files_touched : List String
  open_loops_new : List InsertedLoop
  open_loops_closed : List String
  next_actions : List String
deriving DecidableEq, Repr

/-- One `handoff_packets` row (the TTL column is wall-clock driven,
read only by `pull`, and elided). -/
structure HandoffRow where
  handoff_id : Nat
  session_id : String
  summary : HandoffSummary
  created_seq : Nat
  created_by_client : String
  memory_version : Nat
deriving DecidableEq, Repr

/-- One `consistency_links` row. -/
structure LinkRow where
  link_id : Nat
  sync_id : Nat
  memory_version : Nat
  catalog_version : String
  consistency_status : String
  created_seq : Nat
deriving DecidableEq, Repr

/-- One `sync_audit` row (request/response JSON echoes and latency
elided). -/
structure AuditRow where
  sync_id : Nat
  direction : String
  client_id : String
  session_id : String
  error_code : Option String
  created_seq : Nat
deriving DecidableEq, Repr

/-- The `catalog_meta` singleton, reduced to the one column the engine
reads. -/
structure CatalogMeta where
  catalog_version : String
deriving DecidableEq, Repr

/-- One project's `memory.db`, plus the uuid/timestamp source
`next_seq`. -/
structure EngineState where
  memory_version : Nat
  workspace_root : Option String
  role_state_versions : List VersionRow
  role_state_current : List CurrentRow
  open_loops : List LoopRow
  handoff_packets : List HandoffRow
  catalog_jobs : List JobRow
  consistency_links : List LinkRow
  sync_audit : List AuditRow
  catalog_meta : Option CatalogMeta
  next_seq : Nat
deriving DecidableEq, Repr

/-- A project store freshly created by `connect`/`init_db`:
`memory_version = 0`, no workspace binding, all tables empty. -/
def init_state : EngineState :=
  { memory_version := 0
    workspace_root := none
    role_state_versions := []
    role_state_current := []
    open_loops := []
    handoff_packets := []
    catalog_jobs := []
    consistency_links := []
    sync_audit := []
    catalog_meta := none
    next_seq := 0 }

/-- `store.get_memory_version`. -/
def get_memory_version (s : EngineState) : Nat :=
  s.memory_version

/-- `store.bump_memory_version`: read the counter, add one, store it. -/
def bump_memory_version (s : EngineState) : Nat × EngineState :=
  (s.memory_version + 1, { s with memory_version := s.memory_version + 1 })

/-- Allocate the next uuid/timestamp tick. -/
def tick (s : EngineState) : Nat × EngineState :=
  (s.next_seq, { s with next_seq := s.next_seq + 1 })

/-- The `ORDER BY memory_version DESC, created_at DESC` comparison:
`a` strictly newer than `b`. -/
def newer_row (a b : VersionRow) : Bool :=
  decide (b.memory_version < a.memory_version) ||
    (decide (a.memory_version = b.memory_version) &&
      decide (b.created_seq < a.created_seq))

/-- `... LIMIT 1` over a candidate list: keep the newest row. -/
def newest_in : List VersionRow → Option VersionRow
  | [] => none
  | r :: rest => some (rest.foldl (fun m x => if newer_row x m then x else m) r)

/-- Rows of one `(role, memory_key)`. -/
def rows_for_key (rows : List VersionRow) (role : Role) (memory_key : String) :
    List VersionRow :=
  rows.filter fun r => decide (r.role = role ∧ r.memory_key = memory_key)

/-- The query inside `store._latest_version_id`: the newest row of a
key. -/
def newest_role_version (rows : List VersionRow) (role : Role) (memory_key : String) :
    Option VersionRow :=
  newest_in (rows_for_key rows role memory_key)

/-- `store._latest_version_id`. -/
def _latest_version_id (rows : List VersionRow) (role : Role) (memory_key : String) :
    Option Nat :=
  (newest_role_version rows role memory_key).map fun r => r.version_id

/-- `detect_conflicts`' per-key query: the newest row of the key with
`memory_version > base`. -/
def newest_version_above (rows : List VersionRow) (role : Role) (memory_key : String)
    (base : Nat) : Option VersionRow :=
  newest_in (rows.filter fun r =>
    decide (r.role = role ∧ r.memory_key = memory_key ∧ base < r.memory_version))

/-- One normalised role delta (`sync._normalize_role_deltas` output). -/
structure NormDelta where
  role : Role
  memory_key : String
  value : Value
  confidence : Rat
  source_refs : List Value
deriving DecidableEq, Repr

/-- One entry of the `conflicts[]` array. -/
structure Conflict where
  role : Role
  memory_key : String
  base_version : Nat
  current_version : Nat
  theirs : Value
  updated_seq : Nat
  updated_by_client : String
  version_id : Nat
deriving DecidableEq, Repr

/-- First-occurrence deduplication of `(role, memory_key)` pairs (the
`seen` set in `detect_conflicts`). -/
def dedup_keys (role_deltas : List NormDelta) : List (Role × String) :=
  (role_deltas.map fun d => (d.role, d.memory_key)).foldl
    (fun acc k => if k ∈ acc then acc else acc ++ [k]) []

/-- `store.detect_conflicts`: nothing to check without a base or when
`base ≥ memory_version`; otherwise one conflict per unique key that has
a newer row. -/
def detect_conflicts (s : EngineState) (base_version : Option Nat)
    (role_deltas : List NormDelta) : List Conflict :=
  match base_version with
  | none => []
  | some base =>
    if s.memory_version ≤ base then []
    else
      (dedup_keys role_deltas).filterMap fun k =>
        (newest_version_above s.role_state_versions k.1 k.2 base).map fun row =>
          { role := k.1
            memory_key := k.2
            base_version := base
            current_version := row.memory_version
            theirs := row.value
            updated_seq := row.created_seq
            updated_by_client := row.created_by_client
            version_id := row.version_id }

/-- Replace-or-append into `role_state_current` (the
`INSERT ... ON CONFLICT(project_id, role, memory_key) DO UPDATE`). -/
def upsert_current (cur : List CurrentRow) (row : CurrentRow) : List CurrentRow :=
  if cur.any (fun c => decide (c.role = row.role ∧ c.memory_key = row.memory_key)) then
    cur.map fun c =>
      if c.role = row.role ∧ c.memory_key = row.memory_key then row else c
  else cur ++ [row]

/-- What `upsert_role_delta` returns to the caller. -/
structure AppliedDelta where
  version_id : Nat
  role : Role
  memory_key : String
  memory_version : Nat
deriving DecidableEq, Repr

/-- `store.upsert_role_delta`: append one `role_state_versions` row
(superseding the previous newest of the key) and upsert
`role_state_current`. -/
def upsert_role_delta (s : EngineState) (client_id : String) (memory_version : Nat)
    (d : NormDelta) : AppliedDelta × EngineState :=
  ({ version_id := s.next_seq, role := d.role, memory_key := d.memory_key
     memory_version := memory_version },
   { s with
     next_seq := s.next_seq + 1
     role_state_versions := s.role_state_versions ++
       [{ version_id := s.next_seq
          role := d.role
          memory_key := d.memory_key
          value := d.value
          confidence := d.confidence
          created_seq := s.next_seq
          created_by_client := client_id
          source_refs := d.source_refs
          supersedes_version_id :=
            _latest_version_id s.role_state_versions d.role d.memory_key
          memory_version := memory_version }]
     role_state_current := upsert_current s.role_state_current
       { role := d.role
         memory_key := d.memory_key
         value := d.value
         confidence := d.confidence
         version := memory_version
         updated_seq := s.next_seq
         updated_by_client := client_id
         source_refs := d.source_refs } })

/-- `store.fetch_current_value`. -/
def fetch_current_value (s : EngineState) (role : Role) (memory_key : String) :
    Option CurrentRow :=
  s.role_state_current.find? fun c =>
    decide (c.role = role ∧ c.memory_key = memory_key)


/-- One `open_loops_new` item (fields absent in the request are
`none`). -/
structure LoopNewArg where
  loop_id : Option String
  title : Option String
  details : Option String
  priority : Option Int
  owner_role : Option String
deriving DecidableEq, Repr

/-- One `open_loops_closed` item: a bare loop-id string or an object
with optional `loop_id`/`title`. -/
inductive LoopClosedArg where
  | byString (loop_id : String)
  | byObject (loop_id : Option String) (title : Option String)
deriving DecidableEq, Repr

/-- The loop id one `open_loops_new` item gets:
`str(item.get("loop_id") or "loop_" + uuid4().hex)` — a falsy value is
replaced by a fresh generated id (consuming a uuid tick). -/
def pick_loop_id (st : EngineState) (loop_id : Option String) :
    String × EngineState :=
  match loop_id with
  | some l =>
    if l = "" then ("loop_" ++ Nat.repr st.next_seq, (tick st).2) else (l, st)
  | none => ("loop_" ++ Nat.repr st.next_seq, (tick st).2)

/-- One iteration of the `store.insert_open_loops` loop: items with a
blank title are skipped. -/
def insert_open_loops_step (client_id : String) (memory_version : Nat)
    (created : Nat) (acc : List InsertedLoop × EngineState) (item : LoopNewArg) :
    List InsertedLoop × EngineState :=
  let title := py_strip (item.title.getD "")
  if title = "" then acc
  else
    let idpick := pick_loop_id acc.2 item.loop_id
    let priority := item.priority.getD 3
    (acc.1 ++ [{ loop_id := idpick.1, title := title, priority := priority }],
     { idpick.2 with open_loops := idpick.2.open_loops ++
        [{ loop_id := idpick.1
           title := title
           details := item.details
           status := .opened
           priority := priority
           owner_role := item.owner_role
           created_seq := created
           created_by_client := client_id
           closed_seq := none
           closed_by_client := none
           memory_version := memory_version }] })

/-- `store.insert_open_loops`: one shared `created_at`, then the
per-item loop. -/
def insert_open_loops (s : EngineState) (client_id : String) (memory_version : Nat)
    (items : List LoopNewArg) : List InsertedLoop × EngineState :=
  items.foldl (insert_open_loops_step client_id memory_version (tick s).1)
    ([], (tick s).2)

/-- The loop-id / title one `open_loops_closed` item resolves to: a
truthy `loop_id` wins, else a truthy `title` (`elif` in the code). -/
def closed_arg_target : LoopClosedArg → Option String × Option String
  | .byString l => (if l = "" then none else some l, none)
  | .byObject lid t =>
    if lid.getD "" ≠ "" then (lid, none)
    else if t.getD "" ≠ "" then (none, t)
    else (none, none)

/-- One iteration of the `store.close_open_loops` loop: by id the
update requires the loop to still be open and reports it when a row
changed; by title every open loop with that exact title is selected and
then updated by its id. -/
def close_open_loops_step (client_id : String) (memory_version : Nat)
    (closed_at : Nat) (acc : List String × EngineState) (item : LoopClosedArg) :
    List String × EngineState :=
  match closed_arg_target item with
  | (some l, _) =>
    let matched := acc.2.open_loops.filter fun r =>
      decide (r.loop_id = l ∧ r.status = .opened)
    let updated := acc.2.open_loops.map fun r =>
      if r.loop_id = l ∧ r.status = .opened then
        { r with status := .closed, closed_seq := some closed_at
                 closed_by_client := some client_id
                 memory_version := memory_version }
      else r
    ((if matched.length > 0 then acc.1 ++ [l] else acc.1),
     { acc.2 with open_loops := updated })
  | (none, some t) =>
    let matched := acc.2.open_loops.filter fun r =>
      decide (r.title = t ∧ r.status = .opened)
    let matched_ids := matched.map fun r => r.loop_id
    let updated := acc.2.open_loops.map fun r =>
      if matched_ids.contains r.loop_id then
        { r with status := .closed, closed_seq := some closed_at
                 closed_by_client := some client_id
                 memory_version := memory_version }
      else r
    (acc.1 ++ matched_ids, { acc.2 with open_loops := updated })
  | (none, none) => acc

/-- `store.close_open_loops`: one shared `closed_at`, then the per-item
loop. -/
def close_open_loops (s : EngineState) (client_id : String) (memory_version : Nat)
    (items : List LoopClosedArg) : List String × EngineState :=
  items.foldl (close_open_loops_step client_id memory_version (tick s).1)
    ([], (tick s).2)

/-- `store.insert_handoff_packet` (TTL elided). -/
def insert_handoff_packet (s : EngineState) (session_id : String)
    (summary : HandoffSummary) (created_by_client : String) (memory_version : Nat) :
    Nat × EngineState :=
  let (hid, s1) := tick s
  (hid, { s1 with handoff_packets := s1.handoff_packets ++
      [{ handoff_id := hid
         session_id := session_id
         summary := summary
         created_seq := hid
         created_by_client := created_by_client
         memory_version := memory_version }] })

/-- `store.enqueue_catalog_job`: a fresh `pending` job with
`attempts = 0`, `max_attempts = 5`, `next_retry_at = now` and no
lease. -/
def enqueue_catalog_job (s : EngineState) (job_type : String) (payload : JobPayload) :
    Nat × EngineState :=
  let (jid, s1) := tick s
  (jid, { s1 with catalog_jobs := s1.catalog_jobs ++
      [{ job_id := jid
         job_type := job_type
         payload := payload
         status := .pending
         attempts := 0
         max_attempts := 5
         last_error := none
         next_retry_at := some jid
         lease_expires_at := none }] })

/-- The consistency stamp returned to clients. -/
structure ConsistencyStamp where
  memory_version : Nat
  catalog_version : String
  consistency : String
deriving DecidableEq, Repr

/-- `store.make_consistency_stamp`. -/
def make_consistency_stamp (memory_version : Nat) (catalog_version : String)
    (consistency_status : String) : ConsistencyStamp :=
  { memory_version := memory_version
    catalog_version := catalog_version
    consistency := consistency_status }

/-- What `store.fetch_latest_consistency` returns. -/
structure ConsistencyInfo where
  memory_version : Nat
  catalog_version : String
  consistency_status : String
deriving DecidableEq, Repr

/-- The stored catalog version with the `"sha256:unknown"` default
(`get_catalog_meta` plus the callers' fallback). -/
def current_catalog_version (s : EngineState) : String :=
  match s.catalog_meta with
  | none => "sha256:unknown"
  | some meta => meta.catalog_version

/-- `store.fetch_latest_consistency`: the newest link row, or a default
`unknown` stamp from `project_meta` and `catalog_meta`. -/
def fetch_latest_consistency (s : EngineState) : ConsistencyInfo :=
  match s.consistency_links.getLast? with
  | some link =>
    { memory_version := link.memory_version
      catalog_version := link.catalog_version
      consistency_status := link.consistency_status }
  | none =>
    { memory_version := s.memory_version
      catalog_version := current_catalog_version s
      consistency_status := "unknown" }

/-- `store.insert_consistency_link`. -/
def insert_consistency_link (s : EngineState) (sync_id : Nat) (memory_version : Nat)
    (catalog_version : String) (consistency_status : String) : Nat × EngineState :=
  let (lid, s1) := tick s
  (lid, { s1 with consistency_links := s1.consistency_links ++
      [{ link_id := lid
         sync_id := sync_id
         memory_version := memory_version
         catalog_version := catalog_version
         consistency_status := consistency_status
         created_seq := lid }] })

/-- `store.insert_sync_audit` (request/response echoes and latency
elided). -/
def insert_sync_audit (s : EngineState) (sync_id : Nat) (direction : String)
    (client_id : String) (session_id : String) (error_code : Option String) :
    EngineState :=
  let (aseq, s1) := tick s
  { s1 with sync_audit := s1.sync_audit ++
      [{ sync_id := sync_id
         direction := direction
         client_id := client_id
         session_id := session_id
         error_code := error_code
         created_seq := aseq }] }

/-- `store.resolve_project_workspace`: bind the workspace on first use,
reject a differing one (paths are compared `resolve()`d; the model
takes them already resolved). -/
def resolve_project_workspace (s : EngineState) (caller_root : String) :
    Except BErr EngineState :=
  match s.workspace_root with
  | none => .ok { s with workspace_root := some caller_root }
  | some stored =>
    if stored = caller_root then .ok s
    else .error { error_code := "WORKSPACE_MISMATCH" }


/-! ## Session-sync engine: requests, validation, push and resolve
(`sync.py`, `validation.py`) -/

/-- One raw `role_deltas` item (after JSON decoding).  The `role` field
is typed: an invalid role name never reaches the store (see `Role`).
`note` is only read by the `merge_note` strategy. -/
structure RoleDeltaArg where
  role : Role
  memory_key : String
  value : Value
  confidence : Option Rat
  source_refs : List Value
  note : Option String
deriving DecidableEq, Repr

/-- One raw `decisions_delta` item. -/
structure DecisionArg where
  decision_id : Option String
  title : Option String
  rationale : Option String
  status : Option String
  confidence : Option Rat
  source_refs : List Value
deriving DecidableEq, Repr

/-- The `session.sync.push` arguments for one project.  `workspace` is
`store.project_workspace(project_id)`, the caller's resolved workspace
root. -/
structure PushArgs where
  client_id : String
  session_id : String
  workspace : String
  context_stamp : ContextStamp
  session_summary : String
  role_deltas : List RoleDeltaArg
  decisions_delta : List DecisionArg
  open_loops_new : List LoopNewArg
  open_loops_closed : List LoopClosedArg
  files_touched : List String
deriving DecidableEq, Repr

/-- `validation._require_non_empty_string`, returning the stripped
value. -/
def _require_non_empty_string (value : String) : Except BErr String :=
  if py_strip value = "" then .error { error_code := "INVALID_PUSH_PAYLOAD" }
  else .ok (py_strip value)

/-- `validation._validate_context_stamp`: `null` and strings pass this
stage; a structured stamp needs a non-negative integer
`memory_version`. -/
def _validate_context_stamp : ContextStamp → Except BErr Unit
  | .null => .ok ()
  | .legacy _ => .ok ()
  | .stamp none => .error { error_code := "INVALID_CONTEXT_STAMP" }
  | .stamp (some v) =>
    if v < 0 then .error { error_code := "INVALID_CONTEXT_STAMP" } else .ok ()

/-- Per-item `role_deltas` checks: non-blank `memory_key` (the role
check is carried by the type) and `confidence ∈ [0, 1]`. -/
def validate_role_delta (d : RoleDeltaArg) : Except BErr Unit :=
  if py_strip d.memory_key = "" then .error { error_code := "INVALID_PUSH_PAYLOAD" }
  else if 0 ≤ d.confidence.getD (mkRat 7 10) ∧ d.confidence.getD (mkRat 7 10) ≤ 1
  then .ok ()
  else .error { error_code := "INVALID_PUSH_PAYLOAD" }

/-- Per-item `decisions_delta` check: title non-blank when given. -/
def validate_decision (d : DecisionArg) : Except BErr Unit :=
  match d.title with
  | none => .ok ()
  | some t =>
    if py_strip t = "" then .error { error_code := "INVALID_PUSH_PAYLOAD" }
    else .ok ()

/-- Per-item `open_loops_new` check: title non-blank when given. -/
def validate_loop_new (item : LoopNewArg) : Except BErr Unit :=
  match item.title with
  | none => .ok ()
  | some t =>
    if py_strip t = "" then .error { error_code := "INVALID_PUSH_PAYLOAD" }
    else .ok ()

/-- Per-item `open_loops_closed` check: a bare string, or an object
with a non-blank `loop_id` or `title`. -/
def validate_loop_closed (item : LoopClosedArg) : Except BErr Unit :=
  match item with
  | .byString _ => .ok ()
  | .byObject lid t =>
    if py_strip (lid.getD "") ≠ "" ∨ py_strip (t.getD "") ≠ "" then .ok ()
    else .error { error_code := "INVALID_PUSH_PAYLOAD" }

/-- Per-item `files_touched` check: non-blank strings. -/
def validate_file_touched (item : String) : Except BErr Unit :=
  if py_strip item = "" then .error { error_code := "INVALID_PUSH_PAYLOAD" }
  else .ok ()

/-- Run one per-item check over a list, failing on the first error. -/
def validate_all {α : Type} (f : α → Except BErr Unit) : List α → Except BErr Unit
  | [] => .ok ()
  | x :: rest =>
    match f x with
    | .error e => .error e
    | .ok () => validate_all f rest

/-- The per-field checks of `validate_push_payload` after the three
required strings: the context stamp, then the four list fields, in
source order, failing on the first error. -/
def validate_checks (a : PushArgs) : Except BErr Unit :=
  match _validate_context_stamp a.context_stamp with
  | .error e => .error e
  | .ok () =>
    match validate_all validate_role_delta a.role_deltas with
    | .error e => .error e
    | .ok () =>
      match validate_all validate_decision a.decisions_delta with
      | .error e => .error e
      | .ok () =>
        match validate_all validate_loop_new a.open_loops_new with
        | .error e => .error e
        | .ok () =>
          match validate_all validate_loop_closed a.open_loops_closed with
          | .error e => .error e
          | .ok () => validate_all validate_file_touched a.files_touched

/-- Last stage of `validate_push_payload`: run the remaining checks and
return the payload with the required strings stripped. -/
def validate_push_finish (a : PushArgs)
    (client_id session_id session_summary : String) : Except BErr PushArgs :=
  match validate_checks a with
  | .error e => .error e
  | .ok () =>
    .ok { a with client_id := client_id
                 session_id := session_id
                 session_summary := session_summary }

/-- `validate_push_payload` after the `client_id` and `session_id`
checks. -/
def validate_push_c (a : PushArgs) (client_id session_id : String) :
    Except BErr PushArgs :=
  match _require_non_empty_string a.session_summary with
  | .error e => .error e
  | .ok session_summary => validate_push_finish a client_id session_id session_summary

/-- `validate_push_payload` after the `client_id` check. -/
def validate_push_b (a : PushArgs) (client_id : String) : Except BErr PushArgs :=
  match _require_non_empty_string a.session_id with
  | .error e => .error e
  | .ok session_id => validate_push_c a client_id session_id

/-- `validation.validate_push_payload`: required strings, the context
stamp, then the four list fields, in source order; returns the payload
with the required strings stripped (the `project_id` check lives
outside this per-project model). -/
def validate_push_payload (a : PushArgs) : Except BErr PushArgs :=
  match _require_non_empty_string a.client_id with
  | .error e => .error e
  | .ok client_id => validate_push_b a client_id

/-- `sync._slug`. -/
def _slug (text : String) : String :=
  let mapped := (text.toList.map fun ch =>
    if ch.isAlphanum then ch.toLower else '-').asString
  let joined := "-".intercalate ((mapped.splitOn "-").filter fun chunk => chunk ≠ "")
  let cut := (joined.toList.take 48).asString
  if cut = "" then "decision" else cut

/-- The memory key of one `decisions_delta` entry:
`decision_id or "decision::" + slug(title) + "::" + index`. -/
def decision_memory_key (decision_id : Option String) (title : String)
    (index : Nat) : String :=
  match decision_id with
  | some d =>
    if d ≠ "" then d else "decision::" ++ _slug title ++ "::" ++ Nat.repr index
  | none => "decision::" ++ _slug title ++ "::" ++ Nat.repr index

/-- `sync._normalize_role_deltas`: strip keys and skip blank ones,
default confidences, then fold `decisions_delta` into architect
deltas. -/
def _normalize_role_deltas (role_deltas : List RoleDeltaArg)
    (decisions_delta : List DecisionArg) : List NormDelta :=
  (role_deltas.filterMap fun item =>
    let memory_key := py_strip item.memory_key
    if memory_key = "" then none
    else some { role := item.role
                memory_key := memory_key
                value := item.value
                confidence := item.confidence.getD (mkRat 7 10)
                source_refs := item.source_refs }) ++
  (decisions_delta.enum.filterMap fun ie =>
    let title := py_strip (ie.2.title.getD "")
    if title = "" then none
    else some { role := Role.architect
                memory_key := decision_memory_key ie.2.decision_id title ie.1
                value := Value.decision title ie.2.rationale (ie.2.status.getD "active")
                confidence := ie.2.confidence.getD (mkRat 4 5)
                source_refs := ie.2.source_refs })

/-- The `status` field of a push response. -/
inductive PushStatus where
  | ok
  | needs_resolution
deriving DecidableEq, Repr

/-- The `applied` object of a successful push response. -/
structure AppliedSummary where
  role_deltas : List AppliedDelta
  open_loops_new : List InsertedLoop
  open_loops_closed : List String
  handoff_id : Nat
deriving DecidableEq, Repr

/-- The `catalog_job` object of a successful push response (its
`status` field is the literal `"pending"`). -/
structure CatalogJobRef where
  job_id : Nat
deriving DecidableEq, Repr

/-- A push response (`applied`/`catalog_job` are absent on the conflict
branch). -/
structure PushResponse where
  sync_id : Nat
  memory_version : Nat
  consistency_stamp : ConsistencyStamp
  conflicts : List Conflict
  status : PushStatus
  applied : Option AppliedSummary
  catalog_job : Option CatalogJobRef
deriving DecidableEq, Repr

/-- One iteration of the role-delta loop in `session_sync_push`. -/
def apply_one_delta (client_id : String) (memory_version : Nat)
    (acc : List AppliedDelta × EngineState) (d : NormDelta) :
    List AppliedDelta × EngineState :=
  (acc.1 ++ [(upsert_role_delta acc.2 client_id memory_version d).1],
   (upsert_role_delta acc.2 client_id memory_version d).2)

/-- The role-delta loop in `session_sync_push`: apply each normalised
delta in order via `upsert_role_delta`, collecting the receipts. -/
def apply_role_deltas (s : EngineState) (client_id : String) (memory_version : Nat)
    (deltas : List NormDelta) : List AppliedDelta × EngineState :=
  deltas.foldl (apply_one_delta client_id memory_version) ([], s)

/-- The write transaction of `session_sync_push`, after validation,
stamp parsing and workspace binding: read `V` and the latest
consistency info, detect conflicts, then either audit the conflict
response (no writes) or bump the version and apply the payload. -/
def push_transaction (s : EngineState) (v : PushArgs) (base_version : Option Nat) :
    PushResponse × EngineState :=
  let current_version := get_memory_version s
  let latest := fetch_latest_consistency s
  let role_deltas := _normalize_role_deltas v.role_deltas v.decisions_delta
  let conflicts := detect_conflicts s base_version role_deltas
  let (sync_id, s) := tick s
  if conflicts ≠ [] then
    let response : PushResponse :=
      { sync_id := sync_id
        memory_version := current_version
        consistency_stamp := make_consistency_stamp current_version
          latest.catalog_version latest.consistency_status
        conflicts := conflicts
        status := .needs_resolution
        applied := none
        catalog_job := none }
    (response,
     insert_sync_audit s sync_id "push" v.client_id v.session_id
       (some "CONFLICT_DETECTED"))
  else
    let (new_version, s) := bump_memory_version s
    let applied := apply_role_deltas s v.client_id new_version role_deltas
    let (inserted_loops, s) :=
      insert_open_loops applied.2 v.client_id new_version v.open_loops_new
    let (closed_loop_ids, s) :=
      close_open_loops s v.client_id new_version v.open_loops_closed
    let handoff_summary : HandoffSummary :=
      { session_summary := v.session_summary
        role_delta_count := applied.1.length
        decision_delta_count := v.decisions_delta.length
        files_touched := v.files_touched
        open_loops_new := inserted_loops
        open_loops_closed := closed_loop_ids
        next_actions := (inserted_loops.take 3).map fun item => item.title }
    let (handoff_id, s) :=
      insert_handoff_packet s v.session_id handoff_summary v.client_id new_version
    let (job_id, s) := enqueue_catalog_job s "incremental_refresh"
      { files_touched := v.files_touched
        memory_version := new_version
        sync_id := sync_id
        session_id := v.session_id }
    let catalog_version := current_catalog_version s
    let (_, s) := insert_consistency_link s sync_id new_version catalog_version
      "degraded"
    let response : PushResponse :=
      { sync_id := sync_id
        memory_version := new_version
        consistency_stamp := make_consistency_stamp new_version catalog_version
          "degraded"
        conflicts := []
        status := .ok
        applied := some { role_deltas := applied.1
                          open_loops_new := inserted_loops
                          open_loops_closed := closed_loop_ids
                          handoff_id := handoff_id }
        catalog_job := some { job_id := job_id } }
    (response, insert_sync_audit s sync_id "push" v.client_id v.session_id none)

/-- Workspace stage of `session_sync_push`: enforce the binding, then
run the write transaction. -/
def push_after_parse (s : EngineState) (a : PushArgs) (v : PushArgs)
    (base_version : Option Nat) : Except BErr PushResponse × EngineState :=
  match resolve_project_workspace s a.workspace with
  | .error e => (.error e, s)
  | .ok s1 =>
    (.ok (push_transaction s1 v base_version).1, (push_transaction s1 v base_version).2)

/-- Stamp-parsing stage of `session_sync_push`. -/
def push_after_validate (s : EngineState) (a : PushArgs) (v : PushArgs) :
    Except BErr PushResponse × EngineState :=
  match parse_context_stamp v.context_stamp with
  | .error e => (.error e, s)
  | .ok base_version => push_after_parse s a v base_version

/-- `sync.session_sync_push`: validate the payload, parse the context
stamp, enforce the workspace binding (all before the write
transaction), then run the transaction.  An error leaves the store
unchanged except for a first-use workspace binding, which commits
before the transaction starts. -/
def session_sync_push (s : EngineState) (a : PushArgs) :
    Except BErr PushResponse × EngineState :=
  match validate_push_payload a with
  | .error e => (.error e, s)
  | .ok v => push_after_validate s a v


/-- A conflict-resolution strategy. -/
inductive Strategy where
  | accept_theirs
  | keep_mine
  | merge_note
deriving DecidableEq, Repr

/-- The `session.sync.resolve_conflict` arguments (same payload fields
as a push, plus the strategy; `session_summary` may be absent). -/
structure ResolveArgs where
  client_id : String
  session_id : String
  workspace : String
  strategy : Strategy
  context_stamp : ContextStamp
  session_summary : Option String
  role_deltas : List RoleDeltaArg
  decisions_delta : List DecisionArg
  open_loops_new : List LoopNewArg
  open_loops_closed : List LoopClosedArg
  files_touched : List String
deriving DecidableEq, Repr

/-- A resolve response.  `applied_no_write` marks the
`applied = "no_write"` field of the `accept_theirs` branch. -/
structure ResolveResponse where
  sync_id : Nat
  status : PushStatus
  strategy : Strategy
  memory_version : Nat
  consistency_stamp : ConsistencyStamp
  conflicts : List Conflict
  applied_no_write : Bool
deriving DecidableEq, Repr

/-- `sync._required` as `resolve_conflict` calls it: `client_id`,
`session_id` and `role_deltas` must be truthy (the strategy is typed,
`project_id` is outside the model). -/
def _required_resolve (ra : ResolveArgs) : Except BErr Unit :=
  if ra.client_id = "" ∨ ra.session_id = "" ∨ ra.role_deltas = [] then
    .error { error_code := "MISSING_REQUIRED_FIELDS" }
  else .ok ()

/-- The forced push arguments the `keep_mine` and `merge_note`
strategies build: `context_stamp := null`, a defaulted summary, and the
given deltas. -/
def resolve_push_args (ra : ResolveArgs) (summary_default : String)
    (deltas : List RoleDeltaArg) : PushArgs :=
  { client_id := ra.client_id
    session_id := ra.session_id
    workspace := ra.workspace
    context_stamp := .null
    session_summary :=
      match ra.session_summary with
      | some ss => if ss ≠ "" then ss else summary_default
      | none => summary_default
    role_deltas := deltas
    decisions_delta := ra.decisions_delta
    open_loops_new := ra.open_loops_new
    open_loops_closed := ra.open_loops_closed
    files_touched := ra.files_touched }

/-- The `merge_note` value construction: for each delta read the
current value (`theirs`) and wrap
`{resolution: "merge_note", mine, theirs, note}`. -/
def merge_note_deltas (s : EngineState) (role_deltas : List RoleDeltaArg) :
    List RoleDeltaArg :=
  role_deltas.filterMap fun delta =>
    let memory_key := py_strip delta.memory_key
    if memory_key = "" then none
    else
      some { role := delta.role
             memory_key := memory_key
             value := Value.mergeNote delta.value
               (match fetch_current_value s delta.role memory_key with
                | none => Value.null
                | some c => c.value)
               (match delta.note with
                | some nt =>
                  if nt ≠ "" then nt else "auto merged by merge_note strategy"
                | none => "auto merged by merge_note strategy")
             confidence := some (delta.confidence.getD (mkRat 7 10))
             source_refs := delta.source_refs
             note := none }

/-- The `accept_theirs` branch of `resolve_conflict`: no write beyond
the audit row. -/
def resolve_accept_theirs (s : EngineState) (ra : ResolveArgs) :
    Except BErr ResolveResponse × EngineState :=
  let (sync_id, s1) := tick s
  let latest := fetch_latest_consistency s1
  (.ok { sync_id := sync_id
         status := .ok
         strategy := .accept_theirs
         memory_version := latest.memory_version
         consistency_stamp := make_consistency_stamp latest.memory_version
           latest.catalog_version latest.consistency_status
         conflicts := []
         applied_no_write := true },
   insert_sync_audit s1 sync_id "resolve_conflict" ra.client_id ra.session_id none)

/-- Map a forced-push outcome into the resolve response shape. -/
def resolve_from_push (strategy : Strategy)
    (out : Except BErr PushResponse × EngineState) :
    Except BErr ResolveResponse × EngineState :=
  match out with
  | (.error e, s2) => (.error e, s2)
  | (.ok pr, s2) =>
    (.ok { sync_id := pr.sync_id
           status := pr.status
           strategy := strategy
           memory_version := pr.memory_version
           consistency_stamp := pr.consistency_stamp
           conflicts := pr.conflicts
           applied_no_write := false }, s2)

/-- The `keep_mine` branch: re-invoke push with a null stamp and the
caller's original deltas. -/
def resolve_keep_mine (s : EngineState) (ra : ResolveArgs) :
    Except BErr ResolveResponse × EngineState :=
  resolve_from_push .keep_mine (session_sync_push s
    (resolve_push_args ra "conflict resolved: keep_mine" ra.role_deltas))

/-- The `merge_note` branch: build merged values from the current state
and push with a null stamp. -/
def resolve_merge_note (s : EngineState) (ra : ResolveArgs) :
    Except BErr ResolveResponse × EngineState :=
  resolve_from_push .merge_note (session_sync_push s
    (resolve_push_args ra "conflict resolved: merge_note"
      (merge_note_deltas s ra.role_deltas)))

/-- Strategy dispatch of `resolve_conflict`. -/
def resolve_by_strategy (s : EngineState) (ra : ResolveArgs) :
    Except BErr ResolveResponse × EngineState :=
  match ra.strategy with
  | .accept_theirs => resolve_accept_theirs s ra
  | .keep_mine => resolve_keep_mine s ra
  | .merge_note => resolve_merge_note s ra

/-- `sync.session_sync_resolve_conflict`: check the required fields,
then dispatch on the strategy. -/
def session_sync_resolve_conflict (s : EngineState) (ra : ResolveArgs) :
    Except BErr ResolveResponse × EngineState :=
  match _required_resolve ra with
  | .error e => (.error e, s)
  | .ok () => resolve_by_strategy s ra

/-- One engine operation. -/
inductive Op where
  | push (a : PushArgs)
  | resolve (ra : ResolveArgs)
  | pull (client_id session_id : String)
deriving Repr

/-- Effect of one engine operation on the project store.  `pull` only
reads role memory, loops and the handoff; the write it makes is its
audit row (its catalog-side effects — brief caching, job enqueue, an
inline worker run — touch only catalog tables, never the role-memory
tables or `memory_version`). -/
def step (s : EngineState) : Op → EngineState
  | .push a => (session_sync_push s a).2
  | .resolve ra => (session_sync_resolve_conflict s ra).2
  | .pull client_id session_id =>
    let (sync_id, s1) := tick s
    insert_sync_audit s1 sync_id "pull" client_id session_id none

/-- A sequence of engine operations against one project store. -/
def run_ops (s : EngineState) (ops : List Op) : EngineState :=
  ops.foldl step s


/-! ## Specification predicates -/

/-- Largest `memory_version` among the rows of one key (0 when the key
has no rows). -/
def max_mv (rows : List VersionRow) (role : Role) (memory_key : String) : Nat :=
  ((rows_for_key rows role memory_key).map fun r => r.memory_version).foldl Nat.max 0

/-- The table-level part of [RoleInv]: current rows are unique per key
and every key with history has a current row at the key's largest
`memory_version`. -/
def TableInv (rows : List VersionRow) (cur : List CurrentRow) : Prop :=
  (∀ c1 ∈ cur, ∀ c2 ∈ cur, c1.role = c2.role → c1.memory_key = c2.memory_key →
    c1 = c2) ∧
  (∀ role memory_key,
    (∃ r ∈ rows, r.role = role ∧ r.memory_key = memory_key) →
    ∃ c ∈ cur, c.role = role ∧ c.memory_key = memory_key ∧
      c.version = max_mv rows role memory_key)


/-- The invariant tying `role_state_current` to `role_state_versions`:
version rows never exceed the project version, current rows are unique
per key, and every key with history has a current row at the key's
largest `memory_version`. -/
def RoleInv (s : EngineState) : Prop :=
  (∀ r ∈ s.role_state_versions, r.memory_version ≤ s.memory_version) ∧
  (∀ c1 ∈ s.role_state_current, ∀ c2 ∈ s.role_state_current,
    c1.role = c2.role → c1.memory_key = c2.memory_key → c1 = c2) ∧
  (∀ role memory_key,
    (∃ r ∈ s.role_state_versions, r.role = role ∧ r.memory_key = memory_key) →
    ∃ c ∈ s.role_state_current, c.role = role ∧ c.memory_key = memory_key ∧
      c.version = max_mv s.role_state_versions role memory_key)

/-- `r` is the newest row of `(role, memory_key)` strictly above `base`
under `ORDER BY memory_version DESC, created_at DESC`. -/
def IsNewestAbove (rows : List VersionRow) (role : Role) (memory_key : String)
    (base : Nat) (r : VersionRow) : Prop :=
  r ∈ rows ∧ r.role = role ∧ r.memory_key = memory_key ∧ base < r.memory_version ∧
  ∀ r' ∈ rows, r'.role = role → r'.memory_key = memory_key →
    base < r'.memory_version →
    (r'.memory_version < r.memory_version ∨
      (r'.memory_version = r.memory_version ∧ r'.created_seq ≤ r.created_seq))


/-- A concrete well-formed push payload (used by witnesses). -/
def sample_push_args : PushArgs :=
  { client_id := "client_a"
    session_id := "s1"
    workspace := "/ws_a"
    context_stamp := .null
    session_summary := "seed"
    role_deltas := [{ role := .pm, memory_key := "goal"
                      value := .json "\"Build sync\""
                      confidence := some 1, source_refs := [], note := none }]
    decisions_delta := []
    open_loops_new := []
    open_loops_closed := []
    files_touched := ["src/main.py"] }

/-- A concrete `accept_theirs` resolve payload (used by witnesses). -/
def sample_resolve_args : ResolveArgs :=
  { client_id := "client_b"
    session_id := "s2"
    workspace := "/ws_a"
    strategy := .accept_theirs
    context_stamp := .stamp (some 0)
    session_summary := some "resolved"
    role_deltas := [{ role := .pm, memory_key := "goal"
                      value := .json "\"mine\""
                      confidence := some 1, source_refs := [], note := none }]
    decisions_delta := []
    open_loops_new := []
    open_loops_closed := []
    files_touched := [] }


/-- The engine state after one successful seeding push (one `pm/goal`
version row at `memory_version = 1`). -/
def sample_history_state : EngineState :=
  (session_sync_push init_state sample_push_args).2

/-- A second client pushing to the same key from the stale base
`memory_version = 0`. -/
def conflicting_push_args : PushArgs :=
  { sample_push_args with
    client_id := "client_b"
    session_id := "s2"
    context_stamp := .stamp (some 0)
    session_summary := "update" }

/-! ## Theorems -/

theorem decChars_ne_nil (n : Nat) : decChars n ≠ [] := by
  rw [decChars]
  split
  · simp
  · simp

theorem digitChar_isDigit {m : Nat} (h : m < 10) : (Nat.digitChar m).isDigit := by
  have hall : ∀ m, m < 10 → (Nat.digitChar m).isDigit = true := by decide
  exact hall m h

theorem digitVal_digitChar {m : Nat} (h : m < 10) : digitVal (Nat.digitChar m) = m := by
  have hall : ∀ m, m < 10 → digitVal (Nat.digitChar m) = m := by decide
  exact hall m h

theorem decChars_mem_digitChar (n : Nat) :
    ∀ c ∈ decChars n, ∃ m, m < 10 ∧ c = Nat.digitChar m := by
  induction n using Nat.strong_induction_on with
  | _ n ih =>
    rw [decChars]
    split
    · next h =>
      intro c hc
      simp only [List.mem_singleton] at hc
      exact ⟨n, h, hc⟩
    · next h =>
      intro c hc
      rw [List.mem_append] at hc
      rcases hc with hc | hc
      · exact ih (n / 10) (Nat.div_lt_self (by omega) (by omega)) c hc
      · simp only [List.mem_singleton] at hc
        exact ⟨n % 10, Nat.mod_lt _ (by omega), hc⟩

theorem decChars_all_digits (n : Nat) : ∀ c ∈ decChars n, c.isDigit := by
  intro c hc
  obtain ⟨m, hm, rfl⟩ := decChars_mem_digitChar n c hc
  exact digitChar_isDigit hm

theorem toDigitsCore_eq_decChars :
    ∀ (fuel n : Nat) (ds : List Char), n < fuel →
      Nat.toDigitsCore 10 fuel n ds = decChars n ++ ds := by
  intro fuel
  induction fuel with
  | zero => intro n ds h; omega
  | succ fuel ih =>
    intro n ds h
    rw [Nat.toDigitsCore]
    by_cases hz : n / 10 = 0
    · have hn : n < 10 := by omega
      simp only [hz, if_pos rfl]
      rw [decChars, dif_pos hn, Nat.mod_eq_of_lt hn]
      rfl
    · have hlt : n / 10 < fuel := by
        have := Nat.div_lt_self (n := n) (by omega) (by omega : 1 < 10)
        omega
      simp only [if_neg hz]
      rw [ih (n / 10) _ hlt]
      have hn : ¬ n < 10 := by
        intro hcon
        exact hz (Nat.div_eq_of_lt hcon)
      conv_rhs => rw [decChars, dif_neg hn]
      rw [List.append_assoc]
      rfl

theorem repr_toList_eq_decChars (n : Nat) : (Nat.repr n).toList = decChars n := by
  show (Nat.toDigits 10 n).asString.toList = decChars n
  rw [Nat.toDigits, toDigitsCore_eq_decChars (n + 1) n [] (Nat.lt_succ_self n)]
  simp [List.asString, String.toList]

theorem isDigit_not_space {c : Char} (h : c.isDigit) : pyIsSpace c = false := by
  cases hsp : pyIsSpace c with
  | false => rfl
  | true =>
    exfalso
    simp only [pyIsSpace, Bool.or_eq_true, beq_iff_eq] at hsp
    rcases hsp with ((((h1 | h1) | h1) | h1) | h1) | h1 <;> subst h1 <;>
      exact absurd h (by decide)

theorem isDigit_ne_underscore {c : Char} (h : c.isDigit) : ¬ c = '_' := by
  intro hc; subst hc; exact absurd h (by decide)

theorem isDigit_ne_plus {c : Char} (h : c.isDigit) : ¬ c = '+' := by
  intro hc; subst hc; exact absurd h (by decide)

theorem isDigit_ne_minus {c : Char} (h : c.isDigit) : ¬ c = '-' := by
  intro hc; subst hc; exact absurd h (by decide)

theorem dropWhile_eq_self_of_false {p : Char → Bool} :
    ∀ {l : List Char}, (∀ c ∈ l, p c = false) → l.dropWhile p = l
  | [], _ => rfl
  | c :: rest, h => by
    rw [List.dropWhile_cons, if_neg]
    simp [h c (List.mem_cons_self c rest)]

theorem pyStripChars_of_no_space {l : List Char} (h : ∀ c ∈ l, pyIsSpace c = false) :
    pyStripChars l = l := by
  unfold pyStripChars
  rw [dropWhile_eq_self_of_false h]
  rw [dropWhile_eq_self_of_false (fun c hc => h c (List.mem_reverse.mp hc))]
  exact List.reverse_reverse l

theorem pyDigitsLoop_all_digits :
    ∀ (ds : List Char) (acc : Nat), (∀ c ∈ ds, c.isDigit) →
      pyDigitsLoop ds acc = some (ds.foldl (fun a c => a * 10 + digitVal c) acc) := by
  intro ds
  induction ds with
  | nil => intro acc _; rfl
  | cons c rest ih =>
    intro acc h
    have hc : c.isDigit := h c (List.mem_cons_self c rest)
    rw [pyDigitsLoop, if_pos hc]
    rw [ih _ (fun x hx => h x (List.mem_cons_of_mem c hx))]
    simp [List.foldl_cons]

theorem pyParseDigits_all_digits {ds : List Char} (hne : ds ≠ [])
    (h : ∀ c ∈ ds, c.isDigit) :
    pyParseDigits ds = some (ds.foldl (fun a c => a * 10 + digitVal c) 0) := by
  match ds, hne with
  | c :: rest, _ =>
    have hc : c.isDigit := h c (List.mem_cons_self c rest)
    rw [pyParseDigits, if_pos hc,
      pyDigitsLoop_all_digits rest _ (fun x hx => h x (List.mem_cons_of_mem c hx))]
    simp [List.foldl_cons]

theorem decChars_foldl (n : Nat) :
    ∀ acc : Nat,
      (decChars n).foldl (fun a c => a * 10 + digitVal c) acc =
        acc * 10 ^ (decChars n).length + n := by
  induction n using Nat.strong_induction_on with
  | _ n ih =>
    intro acc
    rw [decChars]
    split
    · next h =>
      simp [List.foldl_cons, List.foldl_nil, digitVal_digitChar h, pow_one]
    · next h =>
      rw [List.foldl_append, ih (n / 10) (Nat.div_lt_self (by omega) (by omega)) acc]
      simp only [List.foldl_cons, List.foldl_nil, List.length_append,
        List.length_singleton]
      rw [digitVal_digitChar (Nat.mod_lt _ (by omega)), pow_succ]
      generalize (10 : Nat) ^ (decChars (n / 10)).length = P
      have hexp : (acc * P + n / 10) * 10 + n % 10 =
          acc * (P * 10) + (n / 10 * 10 + n % 10) := by ring
      rw [hexp]
      congr 1
      omega

theorem pyParseDigits_decChars (n : Nat) : pyParseDigits (decChars n) = some n := by
  rw [pyParseDigits_all_digits (decChars_ne_nil n) (decChars_all_digits n)]
  rw [decChars_foldl n 0]
  simp

theorem pyIntOfChars_decChars (n : Nat) : pyIntOfChars (decChars n) = some (Int.ofNat n) := by
  have hdig := decChars_all_digits n
  have hstrip : pyStripChars (decChars n) = decChars n :=
    pyStripChars_of_no_space (fun c hc => isDigit_not_space (hdig c hc))
  obtain ⟨c, rest, hd⟩ := List.exists_cons_of_ne_nil (decChars_ne_nil n)
  have hc : c.isDigit := hdig c (by rw [hd]; exact List.mem_cons_self c rest)
  have hparse : pyParseDigits (c :: rest) = some n := by
    rw [← hd]; exact pyParseDigits_decChars n
  rw [pyIntOfChars, hstrip, hd, pyIntSigned]
  rw [if_neg (isDigit_ne_plus hc), if_neg (isDigit_ne_minus hc), hparse]
  rfl

theorem toLower_digitChar {m : Nat} (h : m < 10) :
    (Nat.digitChar m).toLower = Nat.digitChar m := by
  have hall : ∀ m, m < 10 → (Nat.digitChar m).toLower = Nat.digitChar m := by decide
  exact hall m h

theorem pyLowerChars_decChars (n : Nat) : pyLowerChars (decChars n) = decChars n := by
  unfold pyLowerChars
  have hcong : (decChars n).map Char.toLower = (decChars n).map id :=
    List.map_congr_left (fun c hc => by
      obtain ⟨m, hm, rfl⟩ := decChars_mem_digitChar n c hc
      exact toLower_digitChar hm)
  rw [hcong, List.map_id]

theorem pyStripChars_decChars (n : Nat) : pyStripChars (decChars n) = decChars n :=
  pyStripChars_of_no_space
    (fun c hc => isDigit_not_space (decChars_all_digits n c hc))

theorem legacy_stamp_chars (n : Nat) :
    pyLowerChars (pyStripChars ("v" ++ Nat.repr n).toList) = 'v' :: decChars n := by
  have happ : ("v" ++ Nat.repr n).toList = 'v' :: (Nat.repr n).toList := rfl
  rw [happ, repr_toList_eq_decChars]
  have hstrip : pyStripChars ('v' :: decChars n) = 'v' :: decChars n := by
    apply pyStripChars_of_no_space
    intro c hc
    rcases List.mem_cons.mp hc with hc | hc
    · subst hc; decide
    · exact isDigit_not_space (decChars_all_digits n c hc)
  rw [hstrip]
  unfold pyLowerChars
  rw [List.map_cons]
  have : Char.toLower 'v' = 'v' := by decide
  rw [this]
  have := pyLowerChars_decChars n
  unfold pyLowerChars at this
  rw [this]

theorem int_ofNat_not_neg (n : Nat) : ¬ (Int.ofNat n < 0) := by
  have h0 : Int.ofNat n = (n : Int) := rfl
  rw [h0]
  omega

theorem parse_context_stamp_legacy (n : Nat) :
    parse_context_stamp (.legacy ("v" ++ Nat.repr n)) = .ok (some n) := by
  rw [parse_context_stamp, legacy_stamp_chars, parse_legacy_stamp]
  rw [if_pos rfl, pyIntOfChars_decChars]
  show (if Int.ofNat n < 0 then Except.error { error_code := "INVALID_CONTEXT_STAMP" }
        else Except.ok (some (Int.ofNat n).toNat)) = Except.ok (some n)
  rw [if_neg (int_ofNat_not_neg n)]
  rfl

theorem parse_context_stamp_structured (n : Nat) :
    parse_context_stamp (.stamp (some (Int.ofNat n))) = .ok (some n) := by
  have heq : parse_context_stamp (.stamp (some (Int.ofNat n))) =
      if (Int.ofNat n) < 0 then Except.error { error_code := "INVALID_CONTEXT_STAMP" }
      else Except.ok (some (Int.ofNat n).toNat) := rfl
  rw [heq, if_neg (int_ofNat_not_neg n)]
  rfl

theorem truncation_suffix_length : truncation_suffix.length = 16 := by decide

theorem truncate_to_budget_cases (text : List Char) (max_tokens : Int) :
    ((truncate_to_budget text max_tokens).length : Int) ≤ max 400 (max_tokens * 4) ∧
    ((text.length : Int) > max 400 (max_tokens * 4) →
      ∃ pre, truncate_to_budget text max_tokens = pre ++ truncation_suffix) ∧
    ((text.length : Int) ≤ max 400 (max_tokens * 4) →
      truncate_to_budget text max_tokens = text) := by
  have hM400 : (400 : Int) ≤ max 400 (max_tokens * 4) := le_max_left _ _
  by_cases h : (text.length : Int) ≤ max 400 (max_tokens * 4)
  · unfold truncate_to_budget
    rw [if_pos h]
    exact ⟨h, fun hgt => absurd h (not_le.mpr hgt), fun _ => rfl⟩
  · unfold truncate_to_budget
    rw [if_neg h]
    have hgt : max 400 (max_tokens * 4) < (text.length : Int) := not_le.mp h
    have hlen : ((text.take (max 400 (max_tokens * 4) -
        (truncation_suffix.length : Int)).toNat ++ truncation_suffix).length : Int) =
        max 400 (max_tokens * 4) := by
      rw [List.length_append, List.length_take, truncation_suffix_length]
      push_cast
      omega
    refine ⟨le_of_eq hlen, fun _ => ⟨_, rfl⟩, fun hle => absurd hle h⟩

/-- C7 (corrected: the budget bounds code points, not bytes).  For every
rendered context brief and every `max_tokens`, `build_context_brief`
returns `truncate_to_budget` of the rendered text; the result is at most
`max(400, max_tokens * 4)` characters long; when the rendered text
exceeds that bound the result ends with the suffix
`"\n... (truncated)"`, and otherwise the text is returned unchanged. -/
theorem context_brief_truncation (role_payloads : List BriefRoleBlock)
    (open_loops_top : List BriefLoop) (handoff_latest : Option BriefValue)
    (max_tokens : Int) :
    build_context_brief role_payloads open_loops_top handoff_latest max_tokens =
      truncate_to_budget
        (render_context_text role_payloads open_loops_top handoff_latest) max_tokens ∧
    ((build_context_brief role_payloads open_loops_top handoff_latest
        max_tokens).length : Int) ≤ max 400 (max_tokens * 4) ∧
    (((render_context_text role_payloads open_loops_top handoff_latest).length : Int) >
        max 400 (max_tokens * 4) →
      ∃ pre, build_context_brief role_payloads open_loops_top handoff_latest max_tokens =
        pre ++ truncation_suffix) ∧
    (((render_context_text role_payloads open_loops_top handoff_latest).length : Int) ≤
        max 400 (max_tokens * 4) →
      build_context_brief role_payloads open_loops_top handoff_latest max_tokens =
        render_context_text role_payloads open_loops_top handoff_latest) := by
  have h := truncate_to_budget_cases
    (render_context_text role_payloads open_loops_top handoff_latest) max_tokens
  exact ⟨rfl, h.1, h.2.1, h.2.2⟩

/-- C7 witness: a concrete empty brief under budget is returned
unchanged and within the bound. -/
theorem context_brief_truncation_witness :
    ((render_context_text [] [] none).length : Int) ≤ max 400 (1 * 4) ∧
    build_context_brief [] [] none 1 = render_context_text [] [] none :=
  ⟨by decide, (context_brief_truncation [] [] none 1).2.2.2 (by decide)⟩

set_option maxRecDepth 8000 in
/-- C7 counterexample to the claim as stated (bytes): a brief whose
rendered text is 236 code points but 636 UTF-8 bytes is returned
unchanged by `build_context_brief` with `max_tokens = 1`, so the
returned brief exceeds `max(400, max_tokens * 4)` bytes. -/
theorem context_brief_bytes_counterexample :
    ((utf8Len (build_context_brief
      [{ role := "pm".toList,
         items := [{ memory_key := "k".toList,
                     value := .str (List.replicate 200 '中') }] }]
      [] none 1)) : Int) > max 400 (1 * 4) := by decide

theorem inferred_modules_sorted_nodup (found : List String) :
    ((((found.map py_strip).filter (fun m => m ≠ "")).dedup).insertionSort
        (· ≤ ·)).Sorted (· < ·) := by
  apply List.Sorted.lt_of_le
  · exact List.sorted_insertionSort _ _
  · exact ((List.perm_insertionSort _ _).nodup_iff).mpr
      (List.nodup_dedup _)

/-- C8 (corrected: the regex fallback also fires when a successful
Python parse finds zero imports).  For Python the syntactic entries
are returned whenever they are non-empty, each `(name, 1.0, "ast")`;
in every other case (non-python language, parse failure, or no
syntactic imports found) the result is the inferred entries: the
stripped, non-empty, deduplicated regex captures, strictly sorted,
each `(module, 0.5, "inferred")`. -/
theorem extract_imports_spec (language : String) (text : SourceText) :
    (language = "python" → _extract_imports_python text.pythonAst ≠ [] →
      extract_imports language text = _extract_imports_python text.pythonAst) ∧
    ((language ≠ "python" ∨ text.pythonAst = none ∨
        _extract_imports_python text.pythonAst = []) →
      extract_imports language text = _extract_imports_inferred text.regexMatches) ∧
    (∀ e ∈ _extract_imports_python text.pythonAst,
      e.confidence = 1 ∧ e.source_type = "ast") ∧
    (∀ e ∈ _extract_imports_inferred text.regexMatches,
      e.confidence = mkRat 1 2 ∧ e.source_type = "inferred") ∧
    (_extract_imports_inferred text.regexMatches).Pairwise
      (fun a b => a.to_module < b.to_module) ∧
    (∀ m : String,
      ({ to_module := m, confidence := mkRat 1 2, source_type := "inferred" } : ImportEntry) ∈
          _extract_imports_inferred text.regexMatches ↔
        (m ∈ text.regexMatches.map py_strip ∧ m ≠ "")) := by
  refine ⟨?_, ?_, ?_, ?_, ?_, ?_⟩
  · intro hlang hne
    rw [extract_imports, if_pos hlang]
    simp only [List.isEmpty_iff]
    rw [if_neg hne]
  · intro hcase
    rcases hcase with hlang | hast | hempty
    · rw [extract_imports, if_neg hlang]
    · rw [extract_imports]
      split
      · simp only [List.isEmpty_iff]
        rw [if_pos (by rw [hast]; rfl)]
      · rfl
    · rw [extract_imports]
      split
      · simp only [List.isEmpty_iff]
        rw [if_pos hempty]
      · rfl
  · intro e he
    match htext : text.pythonAst with
    | none =>
      rw [htext, _extract_imports_python] at he
      simp at he
    | some nodes =>
      rw [htext, _extract_imports_python, List.mem_flatMap] at he
      obtain ⟨node, _, hmem⟩ := he
      match node with
      | .importStmt names =>
        rw [ast_entries_of_node] at hmem
        obtain ⟨n, _, rfl⟩ := List.mem_map.mp hmem
        exact ⟨rfl, rfl⟩
      | .importFrom (some m) =>
        rw [ast_entries_of_node, List.mem_singleton] at hmem
        subst hmem
        exact ⟨rfl, rfl⟩
      | .importFrom none => rw [ast_entries_of_node] at hmem; simp at hmem
      | .otherNode => rw [ast_entries_of_node] at hmem; simp at hmem
  · intro e he
    rw [_extract_imports_inferred] at he
    obtain ⟨m, _, rfl⟩ := List.mem_map.mp he
    exact ⟨rfl, rfl⟩
  · rw [_extract_imports_inferred]
    rw [List.pairwise_map]
    exact inferred_modules_sorted_nodup text.regexMatches
  · intro m
    rw [_extract_imports_inferred]
    rw [List.mem_map]
    constructor
    · rintro ⟨x, hx, heq⟩
      rw [ImportEntry.mk.injEq] at heq
      obtain ⟨rfl, -, -⟩ := heq
      rw [(List.perm_insertionSort _ _).mem_iff, List.mem_dedup, List.mem_filter] at hx
      refine ⟨hx.1, by simpa using hx.2⟩
    · rintro ⟨hmem, hne⟩
      refine ⟨m, ?_, rfl⟩
      rw [(List.perm_insertionSort _ _).mem_iff, List.mem_dedup, List.mem_filter]
      exact ⟨hmem, by simpa using hne⟩

/-- C8 witness: a Python file with one `import os` keeps the syntactic
entry; a JavaScript file with one regex capture yields the inferred
entry. -/
theorem extract_imports_spec_witness :
    extract_imports "python"
        { pythonAst := some [PyNode.importStmt ["os"]], regexMatches := [] } =
      _extract_imports_python (some [PyNode.importStmt ["os"]]) ∧
    extract_imports "javascript" { pythonAst := none, regexMatches := ["react"] } =
      _extract_imports_inferred ["react"] :=
  ⟨(extract_imports_spec "python"
      { pythonAst := some [PyNode.importStmt ["os"]], regexMatches := [] }).1
        rfl (by decide),
   (extract_imports_spec "javascript"
      { pythonAst := none, regexMatches := ["react"] }).2.1 (Or.inl (by decide))⟩

/-- C8 counterexample to the claim as stated: the Python text
`x = require("foo")` parses successfully with zero import statements,
yet `extract_imports` returns a regex-inferred entry instead of the
(empty) syntactic result. -/
theorem extract_imports_counterexample :
    _extract_imports_python (some [PyNode.otherNode]) = [] ∧
    extract_imports "python"
        { pythonAst := some [PyNode.otherNode], regexMatches := ["foo"] } =
      [{ to_module := "foo", confidence := mkRat 1 2, source_type := "inferred" }] := by
  constructor
  · rfl
  · rfl

/-- C9: for every workspace content and known-hash map, the drift score
is in `[0, 1]`, both on the `git_diff` path and on the `hash_compare`
fallback. -/
theorem detect_drift_score_in_range (git_available : Bool) (git_lines : List String)
    (current_hashes known_hashes : List (String × String)) :
    0 ≤ (detect_drift git_available git_lines current_hashes known_hashes).drift_score ∧
    (detect_drift git_available git_lines current_hashes known_hashes).drift_score ≤ 1 := by
  unfold detect_drift
  by_cases hgit : git_available = true
  · rw [if_pos hgit]
    constructor
    · apply le_min
      · positivity
      · norm_num
    · exact min_le_right _ _
  · rw [if_neg hgit]
    unfold _detect_with_hash
    constructor
    · positivity
    · set all_keys :=
        ((known_hashes.map Prod.fst) ++ (current_hashes.map Prod.fst)).dedup with hkeys
      have hden : (0 : Rat) < ((max all_keys.length 1 : Nat) : Rat) := by
        have : 1 ≤ max all_keys.length 1 := le_max_right _ _
        exact_mod_cast Nat.lt_of_lt_of_le Nat.zero_lt_one this
      rw [div_le_one hden]
      have hlen : ((all_keys.insertionSort (· ≤ ·)).filter
          (fun k => dict_get known_hashes k != dict_get current_hashes k)).length ≤
          max all_keys.length 1 := by
        calc ((all_keys.insertionSort (· ≤ ·)).filter _).length
            ≤ (all_keys.insertionSort (· ≤ ·)).length := List.length_filter_le _ _
          _ = all_keys.length := (List.perm_insertionSort _ _).length_eq
          _ ≤ max all_keys.length 1 := le_max_left _ _
      exact_mod_cast hlen

/-- C6: when a catalog job with attempt count `a` and limit `m` is
marked failed, every stored row of that job has its lease cleared; if
`a ≥ m` its status is `failed` with no `next_retry_at`, else `pending`
with `next_retry_at = now + min(300, 2^a)` seconds. -/
theorem mark_catalog_job_failed_spec (jobs : List JobRow) (job_id : Nat)
    (error : String) (now : Nat) (row : JobRow)
    (hfind : jobs.find? (fun j => j.job_id == job_id) = some row) :
    (∃ j' ∈ mark_catalog_job_failed jobs job_id error now, j'.job_id = job_id) ∧
    ∀ j' ∈ mark_catalog_job_failed jobs job_id error now, j'.job_id = job_id →
      j'.lease_expires_at = none ∧
      (row.attempts ≥ row.max_attempts →
        j'.status = .failed ∧ j'.next_retry_at = none) ∧
      (row.attempts < row.max_attempts →
        j'.status = .pending ∧
        j'.next_retry_at = some (now + min 300 (2 ^ row.attempts))) := by
  have hrowmem : row ∈ jobs := List.mem_of_find?_eq_some hfind
  have hrowid : row.job_id = job_id := by
    have := List.find?_some hfind
    simpa using this
  unfold mark_catalog_job_failed
  rw [hfind]
  constructor
  · refine ⟨_, List.mem_map_of_mem _ hrowmem, ?_⟩
    rw [if_pos (by simpa using hrowid)]
    exact hrowid
  · intro j' hj' hid
    obtain ⟨j0, hj0, rfl⟩ := List.mem_map.mp hj'
    by_cases hmatch : j0.job_id == job_id
    · rw [if_pos hmatch]
      refine ⟨rfl, fun hge => ?_, fun hlt => ?_⟩
      · constructor
        · show (if row.attempts ≥ row.max_attempts then JobStatus.failed
                else JobStatus.pending) = JobStatus.failed
          rw [if_pos hge]
        · show (if row.attempts ≥ row.max_attempts then none
                else some (now + min 300 (2 ^ row.attempts))) = none
          rw [if_pos hge]
      · constructor
        · show (if row.attempts ≥ row.max_attempts then JobStatus.failed
                else JobStatus.pending) = JobStatus.pending
          rw [if_neg (by omega)]
        · show (if row.attempts ≥ row.max_attempts then none
                else some (now + min 300 (2 ^ row.attempts))) =
            some (now + min 300 (2 ^ row.attempts))
          rw [if_neg (by omega)]
    · rw [if_neg hmatch] at hid ⊢
      exact absurd (by simpa using hid) (by simpa using hmatch)

/-- C6 witness: a job at its attempt limit goes to `failed` with no
retry, and a job below the limit goes back to `pending` with backoff
`min(300, 2^1) = 2` seconds; both lose their lease. -/
theorem mark_catalog_job_failed_spec_witness :
    (∀ j' ∈ mark_catalog_job_failed [sample_failed_job] 1 "boom" 50, j'.job_id = 1 →
      j'.lease_expires_at = none ∧ j'.status = .failed ∧ j'.next_retry_at = none) ∧
    (∀ j' ∈ mark_catalog_job_failed [sample_retry_job] 2 "boom" 50, j'.job_id = 2 →
      j'.lease_expires_at = none ∧ j'.status = .pending ∧
      j'.next_retry_at = some 52) := by
  constructor
  · intro j' hj' hid
    have h := (mark_catalog_job_failed_spec [sample_failed_job] 1 "boom" 50
      sample_failed_job rfl).2 j' hj' hid
    exact ⟨h.1, (h.2.1 (by decide)).1, (h.2.1 (by decide)).2⟩
  · intro j' hj' hid
    have h := (mark_catalog_job_failed_spec [sample_retry_job] 2 "boom" 50
      sample_retry_job rfl).2 j' hj' hid
    exact ⟨h.1, (h.2.2 (by decide)).1, (h.2.2 (by decide)).2⟩

/-! ### Field-preservation facts for the write helpers -/

theorem insert_sync_audit_mv (s : EngineState) (a : Nat) (b c d : String)
    (e : Option String) : (insert_sync_audit s a b c d e).memory_version =
      s.memory_version := rfl

theorem insert_sync_audit_versions (s : EngineState) (a : Nat) (b c d : String)
    (e : Option String) : (insert_sync_audit s a b c d e).role_state_versions =
      s.role_state_versions := rfl

theorem insert_sync_audit_current (s : EngineState) (a : Nat) (b c d : String)
    (e : Option String) : (insert_sync_audit s a b c d e).role_state_current =
      s.role_state_current := rfl

theorem insert_consistency_link_mv (s : EngineState) (a b : Nat) (cv cs : String) :
    ((insert_consistency_link s a b cv cs).2).memory_version = s.memory_version := rfl

theorem insert_consistency_link_versions (s : EngineState) (a b : Nat) (cv cs : String) :
    ((insert_consistency_link s a b cv cs).2).role_state_versions =
      s.role_state_versions := rfl

theorem insert_consistency_link_current (s : EngineState) (a b : Nat) (cv cs : String) :
    ((insert_consistency_link s a b cv cs).2).role_state_current =
      s.role_state_current := rfl

theorem enqueue_catalog_job_mv (s : EngineState) (t : String) (p : JobPayload) :
    ((enqueue_catalog_job s t p).2).memory_version = s.memory_version := rfl

theorem enqueue_catalog_job_versions (s : EngineState) (t : String) (p : JobPayload) :
    ((enqueue_catalog_job s t p).2).role_state_versions = s.role_state_versions := rfl

theorem enqueue_catalog_job_current (s : EngineState) (t : String) (p : JobPayload) :
    ((enqueue_catalog_job s t p).2).role_state_current = s.role_state_current := rfl

theorem insert_handoff_packet_mv (s : EngineState) (sid : String)
    (sm : HandoffSummary) (cb : String) (mv : Nat) :
    ((insert_handoff_packet s sid sm cb mv).2).memory_version = s.memory_version := rfl

theorem insert_handoff_packet_versions (s : EngineState) (sid : String)
    (sm : HandoffSummary) (cb : String) (mv : Nat) :
    ((insert_handoff_packet s sid sm cb mv).2).role_state_versions =
      s.role_state_versions := rfl

theorem insert_handoff_packet_current (s : EngineState) (sid : String)
    (sm : HandoffSummary) (cb : String) (mv : Nat) :
    ((insert_handoff_packet s sid sm cb mv).2).role_state_current =
      s.role_state_current := rfl

theorem pick_loop_id_untouched (st : EngineState) (lid : Option String) :
    ((pick_loop_id st lid).2).memory_version = st.memory_version ∧
    ((pick_loop_id st lid).2).role_state_versions = st.role_state_versions ∧
    ((pick_loop_id st lid).2).role_state_current = st.role_state_current := by
  rcases lid with _ | l
  · exact ⟨rfl, rfl, rfl⟩
  · rw [pick_loop_id]
    by_cases hle : l = ""
    · rw [if_pos hle]
      exact ⟨rfl, rfl, rfl⟩
    · rw [if_neg hle]
      exact ⟨rfl, rfl, rfl⟩

theorem insert_open_loops_step_untouched (cid : String) (mv created : Nat)
    (acc : List InsertedLoop × EngineState) (item : LoopNewArg) :
    ((insert_open_loops_step cid mv created acc item).2).memory_version =
        acc.2.memory_version ∧
    ((insert_open_loops_step cid mv created acc item).2).role_state_versions =
        acc.2.role_state_versions ∧
    ((insert_open_loops_step cid mv created acc item).2).role_state_current =
        acc.2.role_state_current := by
  have hpick := pick_loop_id_untouched acc.2 item.loop_id
  by_cases ht : py_strip (item.title.getD "") = ""
  · simp only [insert_open_loops_step]
    rw [if_pos ht]
    exact ⟨rfl, rfl, rfl⟩
  · simp only [insert_open_loops_step]
    rw [if_neg ht]
    exact ⟨hpick.1, hpick.2.1, hpick.2.2⟩

theorem insert_open_loops_fold_untouched (cid : String) (mv created : Nat) :
    ∀ (items : List LoopNewArg) (acc : List InsertedLoop × EngineState),
      ((items.foldl (insert_open_loops_step cid mv created) acc).2).memory_version =
          acc.2.memory_version ∧
      ((items.foldl (insert_open_loops_step cid mv created) acc).2).role_state_versions =
          acc.2.role_state_versions ∧
      ((items.foldl (insert_open_loops_step cid mv created) acc).2).role_state_current =
          acc.2.role_state_current := by
  intro items
  induction items with
  | nil => intro acc; exact ⟨rfl, rfl, rfl⟩
  | cons item rest ih =>
    intro acc
    rw [List.foldl_cons]
    have hstep := insert_open_loops_step_untouched cid mv created acc item
    have hrest := ih (insert_open_loops_step cid mv created acc item)
    exact ⟨hrest.1.trans hstep.1, hrest.2.1.trans hstep.2.1,
      hrest.2.2.trans hstep.2.2⟩

theorem insert_open_loops_untouched (s : EngineState) (cid : String) (mv : Nat)
    (items : List LoopNewArg) :
    ((insert_open_loops s cid mv items).2).memory_version = s.memory_version ∧
    ((insert_open_loops s cid mv items).2).role_state_versions =
        s.role_state_versions ∧
    ((insert_open_loops s cid mv items).2).role_state_current =
        s.role_state_current :=
  insert_open_loops_fold_untouched cid mv (tick s).1 items ([], (tick s).2)

theorem close_open_loops_step_untouched (cid : String) (mv closed_at : Nat)
    (acc : List String × EngineState) (item : LoopClosedArg) :
    ((close_open_loops_step cid mv closed_at acc item).2).memory_version =
        acc.2.memory_version ∧
    ((close_open_loops_step cid mv closed_at acc item).2).role_state_versions =
        acc.2.role_state_versions ∧
    ((close_open_loops_step cid mv closed_at acc item).2).role_state_current =
        acc.2.role_state_current := by
  unfold close_open_loops_step
  rcases hct : closed_arg_target item with ⟨_ | l, _ | t⟩ <;> exact ⟨rfl, rfl, rfl⟩

theorem close_open_loops_fold_untouched (cid : String) (mv closed_at : Nat) :
    ∀ (items : List LoopClosedArg) (acc : List String × EngineState),
      ((items.foldl (close_open_loops_step cid mv closed_at) acc).2).memory_version =
          acc.2.memory_version ∧
      ((items.foldl
          (close_open_loops_step cid mv closed_at) acc).2).role_state_versions =
          acc.2.role_state_versions ∧
      ((items.foldl
          (close_open_loops_step cid mv closed_at) acc).2).role_state_current =
          acc.2.role_state_current := by
  intro items
  induction items with
  | nil => intro acc; exact ⟨rfl, rfl, rfl⟩
  | cons item rest ih =>
    intro acc
    rw [List.foldl_cons]
    have hstep := close_open_loops_step_untouched cid mv closed_at acc item
    have hrest := ih (close_open_loops_step cid mv closed_at acc item)
    exact ⟨hrest.1.trans hstep.1, hrest.2.1.trans hstep.2.1,
      hrest.2.2.trans hstep.2.2⟩

theorem close_open_loops_untouched (s : EngineState) (cid : String) (mv : Nat)
    (items : List LoopClosedArg) :
    ((close_open_loops s cid mv items).2).memory_version = s.memory_version ∧
    ((close_open_loops s cid mv items).2).role_state_versions =
        s.role_state_versions ∧
    ((close_open_loops s cid mv items).2).role_state_current =
        s.role_state_current :=
  close_open_loops_fold_untouched cid mv (tick s).1 items ([], (tick s).2)

theorem apply_role_deltas_fold_mv (cid : String) (mv : Nat) :
    ∀ (deltas : List NormDelta) (acc : List AppliedDelta × EngineState),
      ((deltas.foldl (apply_one_delta cid mv) acc).2).memory_version =
        acc.2.memory_version := by
  intro deltas
  induction deltas with
  | nil => intro acc; rfl
  | cons d rest ih =>
    intro acc
    rw [List.foldl_cons]
    exact (ih (apply_one_delta cid mv acc d)).trans rfl

theorem apply_role_deltas_mv (s : EngineState) (cid : String) (mv : Nat)
    (deltas : List NormDelta) :
    ((apply_role_deltas s cid mv deltas).2).memory_version = s.memory_version :=
  apply_role_deltas_fold_mv cid mv deltas ([], s)

/-! ### Case analysis of the push write transaction -/

theorem push_transaction_conflict (s : EngineState) (v : PushArgs)
    (base : Option Nat) (conflicts : List Conflict)
    (hc : detect_conflicts s base
      (_normalize_role_deltas v.role_deltas v.decisions_delta) = conflicts)
    (hne : conflicts ≠ []) :
    (push_transaction s v base).1.status = .needs_resolution ∧
    (push_transaction s v base).1.conflicts = conflicts ∧
    (push_transaction s v base).1.memory_version = s.memory_version ∧
    (push_transaction s v base).2.memory_version = s.memory_version ∧
    (push_transaction s v base).2.role_state_versions = s.role_state_versions ∧
    (push_transaction s v base).2.role_state_current = s.role_state_current ∧
    (push_transaction s v base).2.sync_audit = s.sync_audit ++
      [{ sync_id := s.next_seq, direction := "push", client_id := v.client_id
         session_id := v.session_id, error_code := some "CONFLICT_DETECTED"
         created_seq := s.next_seq + 1 }] := by
  simp only [push_transaction]
  rw [hc, if_pos hne]
  exact ⟨rfl, rfl, rfl, rfl, rfl, rfl, rfl⟩

theorem push_transaction_ok (s : EngineState) (v : PushArgs) (base : Option Nat)
    (hc : detect_conflicts s base
      (_normalize_role_deltas v.role_deltas v.decisions_delta) = []) :
    (push_transaction s v base).1.status = .ok ∧
    (push_transaction s v base).1.conflicts = [] ∧
    (push_transaction s v base).1.memory_version = s.memory_version + 1 ∧
    (push_transaction s v base).2.memory_version = s.memory_version + 1 := by
  simp only [push_transaction]
  rw [hc, if_neg (fun h => h rfl)]
  refine ⟨rfl, rfl, rfl, ?_⟩
  rw [insert_sync_audit_mv, insert_consistency_link_mv, enqueue_catalog_job_mv,
    insert_handoff_packet_mv]
  rw [(close_open_loops_untouched _ _ _ _).1, (insert_open_loops_untouched _ _ _ _).1,
    apply_role_deltas_mv]
  rfl

theorem resolve_project_workspace_ok_fields (s : EngineState) (w : String)
    (s1 : EngineState) (h : resolve_project_workspace s w = .ok s1) :
    s1.memory_version = s.memory_version ∧
    s1.role_state_versions = s.role_state_versions ∧
    s1.role_state_current = s.role_state_current ∧
    s1.sync_audit = s.sync_audit ∧
    s1.next_seq = s.next_seq := by
  unfold resolve_project_workspace at h
  split at h
  · cases h
    exact ⟨rfl, rfl, rfl, rfl, rfl⟩
  · split at h
    · cases h
      exact ⟨rfl, rfl, rfl, rfl, rfl⟩
    · exact Except.noConfusion h

theorem session_sync_push_val_error (s : EngineState) (a : PushArgs) (e : BErr)
    (h : validate_push_payload a = .error e) :
    session_sync_push s a = (.error e, s) := by
  unfold session_sync_push
  rw [h]

theorem session_sync_push_validated (s : EngineState) (a : PushArgs) (v : PushArgs)
    (h : validate_push_payload a = .ok v) :
    session_sync_push s a = push_after_validate s a v := by
  unfold session_sync_push
  rw [h]

theorem push_after_validate_parse_error (s : EngineState) (a : PushArgs)
    (v : PushArgs) (e : BErr) (h : parse_context_stamp v.context_stamp = .error e) :
    push_after_validate s a v = (.error e, s) := by
  unfold push_after_validate
  rw [h]

theorem push_after_validate_parsed (s : EngineState) (a : PushArgs) (v : PushArgs)
    (base : Option Nat) (h : parse_context_stamp v.context_stamp = .ok base) :
    push_after_validate s a v = push_after_parse s a v base := by
  unfold push_after_validate
  rw [h]

theorem push_after_parse_ws_error (s : EngineState) (a : PushArgs) (v : PushArgs)
    (base : Option Nat) (e : BErr)
    (h : resolve_project_workspace s a.workspace = .error e) :
    push_after_parse s a v base = (.error e, s) := by
  unfold push_after_parse
  rw [h]

theorem push_after_parse_ws_ok (s : EngineState) (a : PushArgs) (v : PushArgs)
    (base : Option Nat) (s1 : EngineState)
    (h : resolve_project_workspace s a.workspace = .ok s1) :
    push_after_parse s a v base =
      (.ok (push_transaction s1 v base).1, (push_transaction s1 v base).2) := by
  unfold push_after_parse
  rw [h]

theorem resolve_required_error (s : EngineState) (ra : ResolveArgs) (e : BErr)
    (h : _required_resolve ra = .error e) :
    session_sync_resolve_conflict s ra = (.error e, s) := by
  unfold session_sync_resolve_conflict
  rw [h]

theorem resolve_required_ok (s : EngineState) (ra : ResolveArgs)
    (h : _required_resolve ra = .ok ()) :
    session_sync_resolve_conflict s ra = resolve_by_strategy s ra := by
  unfold session_sync_resolve_conflict
  rw [h]

theorem resolve_by_strategy_accept (s : EngineState) (ra : ResolveArgs)
    (h : ra.strategy = .accept_theirs) :
    resolve_by_strategy s ra = resolve_accept_theirs s ra := by
  unfold resolve_by_strategy
  rw [h]

theorem resolve_by_strategy_keep (s : EngineState) (ra : ResolveArgs)
    (h : ra.strategy = .keep_mine) :
    resolve_by_strategy s ra = resolve_keep_mine s ra := by
  unfold resolve_by_strategy
  rw [h]

theorem resolve_by_strategy_merge (s : EngineState) (ra : ResolveArgs)
    (h : ra.strategy = .merge_note) :
    resolve_by_strategy s ra = resolve_merge_note s ra := by
  unfold resolve_by_strategy
  rw [h]

theorem resolve_from_push_state (strategy : Strategy)
    (out : Except BErr PushResponse × EngineState) :
    (resolve_from_push strategy out).2 = out.2 := by
  rcases out with ⟨r, s2⟩
  rcases r with e | pr <;> rfl

/-- C1: within one project, a push that returns `status = ok` advances
`memory_version` by exactly one, and it never advances otherwise: a
push answered with `needs_resolution`, a push that fails, and a
`resolve_conflict` with strategy `accept_theirs` all leave
`memory_version` unchanged. -/
theorem memory_version_advances_exactly_on_ok (s : EngineState) (a : PushArgs)
    (ra : ResolveArgs) :
    (∀ resp s', session_sync_push s a = (.ok resp, s') →
      (resp.status = .ok → s'.memory_version = s.memory_version + 1) ∧
      (resp.status = .needs_resolution → s'.memory_version = s.memory_version)) ∧
    (∀ e s', session_sync_push s a = (.error e, s') →
      s'.memory_version = s.memory_version) ∧
    (ra.strategy = .accept_theirs →
      ∀ out s', session_sync_resolve_conflict s ra = (out, s') →
        s'.memory_version = s.memory_version) := by
  refine ⟨?_, ?_, ?_⟩
  · intro resp s' h
    rcases hval : validate_push_payload a with e | v
    · rw [session_sync_push_val_error s a e hval] at h
      simp at h
    · rw [session_sync_push_validated s a v hval] at h
      rcases hparse : parse_context_stamp v.context_stamp with e | base
      · rw [push_after_validate_parse_error s a v e hparse] at h
        simp at h
      · rw [push_after_validate_parsed s a v base hparse] at h
        rcases hws : resolve_project_workspace s a.workspace with e | s1
        · rw [push_after_parse_ws_error s a v base e hws] at h
          simp at h
        · rw [push_after_parse_ws_ok s a v base s1 hws] at h
          have hfields := resolve_project_workspace_ok_fields s a.workspace s1 hws
          rw [Prod.mk.injEq] at h
          obtain ⟨hresp, hstate⟩ := h
          injection hresp with hresp
          by_cases hempty : detect_conflicts s1 base
              (_normalize_role_deltas v.role_deltas v.decisions_delta) = []
          · have hok := push_transaction_ok s1 v base hempty
            constructor
            · intro _
              rw [← hstate, hok.2.2.2, hfields.1]
            · intro hstat
              rw [← hresp, hok.1] at hstat
              exact absurd hstat (by simp)
          · have hconf := push_transaction_conflict s1 v base _ rfl hempty
            constructor
            · intro hstat
              rw [← hresp, hconf.1] at hstat
              exact absurd hstat (by simp)
            · intro _
              rw [← hstate, hconf.2.2.2.1, hfields.1]
  · intro e s' h
    rcases hval : validate_push_payload a with e1 | v
    · rw [session_sync_push_val_error s a e1 hval] at h
      rw [Prod.mk.injEq] at h
      rw [← h.2]
    · rw [session_sync_push_validated s a v hval] at h
      rcases hparse : parse_context_stamp v.context_stamp with e1 | base
      · rw [push_after_validate_parse_error s a v e1 hparse] at h
        rw [Prod.mk.injEq] at h
        rw [← h.2]
      · rw [push_after_validate_parsed s a v base hparse] at h
        rcases hws : resolve_project_workspace s a.workspace with e1 | s1
        · rw [push_after_parse_ws_error s a v base e1 hws] at h
          rw [Prod.mk.injEq] at h
          rw [← h.2]
        · rw [push_after_parse_ws_ok s a v base s1 hws] at h
          rw [Prod.mk.injEq] at h
          exact absurd h.1 (by simp)
  · intro hstrat out s' h
    rcases hreq : _required_resolve ra with e | u
    · rw [resolve_required_error s ra e hreq] at h
      rw [Prod.mk.injEq] at h
      rw [← h.2]
    · cases u
      rw [resolve_required_ok s ra hreq, resolve_by_strategy_accept s ra hstrat] at h
      rw [Prod.mk.injEq] at h
      rw [← h.2, resolve_accept_theirs]
      rw [insert_sync_audit_mv]
      rfl

/-- C1 witness: on a fresh store, the sample push succeeds and bumps
the version from 0 to 1, and an `accept_theirs` resolve leaves it at
0. -/
theorem memory_version_advances_exactly_on_ok_witness :
    (∃ resp s', session_sync_push init_state sample_push_args = (.ok resp, s') ∧
      resp.status = .ok ∧ s'.memory_version = init_state.memory_version + 1) ∧
    (∃ out s',
      session_sync_resolve_conflict init_state sample_resolve_args = (out, s') ∧
      s'.memory_version = init_state.memory_version) := by
  constructor
  · refine ⟨_, _, rfl, rfl, ?_⟩
    exact ((memory_version_advances_exactly_on_ok init_state sample_push_args
      sample_resolve_args).1 _ _ rfl).1 rfl
  · refine ⟨_, _, rfl, ?_⟩
    exact (memory_version_advances_exactly_on_ok init_state sample_push_args
      sample_resolve_args).2.2 rfl _ _ rfl

/-- C5: when the stored `workspace_root` differs from the caller's
workspace, a (structurally valid) push fails with
`WORKSPACE_MISMATCH` before any write: the returned state is exactly
the pre-push store, so `memory_version` and the stored current value of
every previously written `(role, memory_key)` are unchanged. -/
theorem workspace_mismatch_rejects_push (s : EngineState) (a v : PushArgs)
    (base : Option Nat) (w0 : String)
    (hbound : s.workspace_root = some w0)
    (hdiff : w0 ≠ a.workspace)
    (hval : validate_push_payload a = .ok v)
    (hparse : parse_context_stamp v.context_stamp = .ok base) :
    session_sync_push s a = (.error { error_code := "WORKSPACE_MISMATCH" }, s) ∧
    (session_sync_push s a).2.memory_version = s.memory_version ∧
    (∀ role memory_key,
      fetch_current_value (session_sync_push s a).2 role memory_key =
        fetch_current_value s role memory_key) := by
  have hws : resolve_project_workspace s a.workspace =
      .error { error_code := "WORKSPACE_MISMATCH" } := by
    unfold resolve_project_workspace
    rw [hbound]
    show (if w0 = a.workspace then Except.ok s
          else Except.error ({ error_code := "WORKSPACE_MISMATCH" } : BErr)) =
      Except.error ({ error_code := "WORKSPACE_MISMATCH" } : BErr)
    rw [if_neg hdiff]
  have heq : session_sync_push s a =
      (.error { error_code := "WORKSPACE_MISMATCH" }, s) := by
    rw [session_sync_push_validated s a v hval,
      push_after_validate_parsed s a v base hparse,
      push_after_parse_ws_error s a v base _ hws]
  refine ⟨heq, ?_, ?_⟩
  · rw [heq]
  · intro role memory_key
    rw [heq]

/-- C5 witness: a store bound to `/ws_a` rejects the sample push issued
from `/ws_b` and is returned unchanged. -/
theorem workspace_mismatch_rejects_push_witness :
    session_sync_push { init_state with workspace_root := some "/ws_a" }
        { sample_push_args with workspace := "/ws_b" } =
      (.error { error_code := "WORKSPACE_MISMATCH" },
       { init_state with workspace_root := some "/ws_a" }) :=
  (workspace_mismatch_rejects_push
    { init_state with workspace_root := some "/ws_a" }
    { sample_push_args with workspace := "/ws_b" }
    { sample_push_args with workspace := "/ws_b" }
    none "/ws_a" rfl (by decide) (by rfl) (by rfl)).1

/-! ### The newest-row query and conflict detection -/

theorem newer_row_false_iff (a b : VersionRow) :
    newer_row a b = false ↔
      (a.memory_version < b.memory_version ∨
        (a.memory_version = b.memory_version ∧ a.created_seq ≤ b.created_seq)) := by
  simp only [newer_row, Bool.or_eq_false_iff, Bool.and_eq_false_iff,
    decide_eq_false_iff_not, not_lt]
  omega

theorem newer_row_false_trans {a b c : VersionRow} (hab : newer_row a b = false)
    (hbc : newer_row b c = false) : newer_row a c = false := by
  rw [newer_row_false_iff] at hab hbc ⊢
  omega

theorem newer_row_irrefl (a : VersionRow) : newer_row a a = false := by
  rw [newer_row_false_iff]
  omega

theorem newer_row_pick_left (m r : VersionRow) :
    newer_row m (if newer_row r m then r else m) = false := by
  by_cases h : newer_row r m = true
  · rw [if_pos h]
    rw [newer_row_false_iff]
    simp only [newer_row, Bool.or_eq_true, Bool.and_eq_true, decide_eq_true_eq] at h
    omega
  · rw [if_neg h]
    exact newer_row_irrefl m

theorem newer_row_pick_right (m r : VersionRow) :
    newer_row r (if newer_row r m then r else m) = false := by
  by_cases h : newer_row r m = true
  · rw [if_pos h]
    exact newer_row_irrefl r
  · rw [if_neg h]
    exact Bool.eq_false_iff.mpr (fun hc => h hc)

theorem foldl_pick_mem :
    ∀ (rest : List VersionRow) (m : VersionRow),
      rest.foldl (fun m x => if newer_row x m then x else m) m ∈ m :: rest := by
  intro rest
  induction rest with
  | nil => intro m; exact List.mem_cons_self m []
  | cons r rest ih =>
    intro m
    rw [List.foldl_cons]
    rcases List.mem_cons.mp (ih (if newer_row r m then r else m)) with h | h
    · rw [h]
      by_cases hn : newer_row r m = true
      · rw [if_pos hn]
        exact List.mem_cons_of_mem m (List.mem_cons_self r rest)
      · rw [if_neg hn]
        exact List.mem_cons_self m (r :: rest)
    · exact List.mem_cons_of_mem m (List.mem_cons_of_mem r h)

theorem foldl_pick_newest :
    ∀ (rest : List VersionRow) (m : VersionRow), ∀ x ∈ m :: rest,
      newer_row x (rest.foldl (fun m x => if newer_row x m then x else m) m) = false := by
  intro rest
  induction rest with
  | nil =>
    intro m x hx
    rcases List.mem_cons.mp hx with h | h
    · rw [h]
      exact newer_row_irrefl m
    · exact absurd h (List.not_mem_nil x)
  | cons r rest ih =>
    intro m x hx
    rw [List.foldl_cons]
    have hhead := ih (if newer_row r m then r else m)
      (if newer_row r m then r else m)
      (List.mem_cons_self _ rest)
    rcases List.mem_cons.mp hx with h | h
    · rw [h]
      exact newer_row_false_trans (newer_row_pick_left m r) hhead
    · rcases List.mem_cons.mp h with h2 | h2
      · rw [h2]
        exact newer_row_false_trans (newer_row_pick_right m r) hhead
      · exact ih (if newer_row r m then r else m) x (List.mem_cons_of_mem _ h2)

theorem newest_in_none_iff (l : List VersionRow) : newest_in l = none ↔ l = [] := by
  cases l with
  | nil => simp [newest_in]
  | cons r rest => simp [newest_in]

theorem newest_in_spec (l : List VersionRow) (r : VersionRow)
    (h : newest_in l = some r) :
    r ∈ l ∧ ∀ x ∈ l, newer_row x r = false := by
  cases l with
  | nil => exact Option.noConfusion h
  | cons m rest =>
    unfold newest_in at h
    injection h with h
    subst h
    exact ⟨foldl_pick_mem rest m, foldl_pick_newest rest m⟩

theorem newest_version_above_some (rows : List VersionRow) (role : Role)
    (memory_key : String) (base : Nat) (r : VersionRow)
    (h : newest_version_above rows role memory_key base = some r) :
    IsNewestAbove rows role memory_key base r := by
  obtain ⟨hmem, hall⟩ := newest_in_spec _ r h
  rw [List.mem_filter] at hmem
  obtain ⟨hrows, hp⟩ := hmem
  rw [decide_eq_true_eq] at hp
  refine ⟨hrows, hp.1, hp.2.1, hp.2.2, ?_⟩
  intro r' hr' hrole hkey hbase
  have hr'f : r' ∈ rows.filter fun x =>
      decide (x.role = role ∧ x.memory_key = memory_key ∧ base < x.memory_version) := by
    rw [List.mem_filter, decide_eq_true_eq]
    exact ⟨hr', hrole, hkey, hbase⟩
  have := hall r' hr'f
  rw [newer_row_false_iff] at this
  omega

theorem newest_version_above_none_iff (rows : List VersionRow) (role : Role)
    (memory_key : String) (base : Nat) :
    newest_version_above rows role memory_key base = none ↔
      ∀ r ∈ rows, ¬(r.role = role ∧ r.memory_key = memory_key ∧
        base < r.memory_version) := by
  unfold newest_version_above
  rw [newest_in_none_iff, List.filter_eq_nil_iff]
  constructor
  · intro h r hr
    have := h r hr
    rw [decide_eq_true_eq] at this
    exact this
  · intro h r hr
    rw [decide_eq_true_eq]
    exact h r hr

theorem dedup_keys_foldl_mem (k : Role × String) :
    ∀ (l : List (Role × String)) (acc : List (Role × String)),
      k ∈ l.foldl (fun acc x => if x ∈ acc then acc else acc ++ [x]) acc ↔
        k ∈ acc ∨ k ∈ l := by
  intro l
  induction l with
  | nil => intro acc; simp
  | cons x l ih =>
    intro acc
    rw [List.foldl_cons, ih]
    by_cases hx : x ∈ acc
    · rw [if_pos hx]
      constructor
      · rintro (h | h)
        · exact Or.inl h
        · exact Or.inr (List.mem_cons_of_mem x h)
      · rintro (h | h)
        · exact Or.inl h
        · rcases List.mem_cons.mp h with h2 | h2
          · exact Or.inl (h2 ▸ hx)
          · exact Or.inr h2
    · rw [if_neg hx]
      rw [List.mem_append, List.mem_singleton]
      constructor
      · rintro ((h | h) | h)
        · exact Or.inl h
        · exact Or.inr (List.mem_cons.mpr (Or.inl h))
        · exact Or.inr (List.mem_cons.mpr (Or.inr h))
      · rintro (h | h)
        · exact Or.inl (Or.inl h)
        · rcases List.mem_cons.mp h with h2 | h2
          · exact Or.inl (Or.inr h2)
          · exact Or.inr h2

theorem dedup_keys_mem (role_deltas : List NormDelta) (k : Role × String) :
    k ∈ dedup_keys role_deltas ↔
      ∃ d ∈ role_deltas, (d.role, d.memory_key) = k := by
  unfold dedup_keys
  rw [dedup_keys_foldl_mem]
  simp [List.mem_map]

theorem detect_conflicts_eq (s : EngineState) (base : Nat)
    (role_deltas : List NormDelta) (hbase : base < s.memory_version) :
    detect_conflicts s (some base) role_deltas =
      (dedup_keys role_deltas).filterMap fun k =>
        (newest_version_above s.role_state_versions k.1 k.2 base).map fun row =>
          { role := k.1
            memory_key := k.2
            base_version := base
            current_version := row.memory_version
            theirs := row.value
            updated_seq := row.created_seq
            updated_by_client := row.created_by_client
            version_id := row.version_id } := by
  unfold detect_conflicts
  exact if_neg (not_le.mpr hbase)

theorem detect_conflicts_ne_nil_iff (s : EngineState) (base : Nat)
    (role_deltas : List NormDelta) (hbase : base < s.memory_version) :
    detect_conflicts s (some base) role_deltas ≠ [] ↔
      ∃ d ∈ role_deltas, ∃ r ∈ s.role_state_versions,
        r.role = d.role ∧ r.memory_key = d.memory_key ∧ base < r.memory_version := by
  rw [detect_conflicts_eq s base role_deltas hbase]
  rw [ne_eq, List.filterMap_eq_nil_iff]
  push_neg
  constructor
  · rintro ⟨k, hk, hne⟩
    obtain ⟨d, hd, hdk⟩ := (dedup_keys_mem role_deltas k).mp hk
    rcases hnv : newest_version_above s.role_state_versions k.1 k.2 base with _ | r
    · exact absurd (by rw [hnv]; rfl) hne
    · have hspec := newest_version_above_some _ _ _ _ _ hnv
      have h1 : k.1 = d.role := by rw [← hdk]
      have h2 : k.2 = d.memory_key := by rw [← hdk]
      refine ⟨d, hd, r, hspec.1, ?_, ?_, hspec.2.2.2.1⟩
      · rw [hspec.2.1, h1]
      · rw [hspec.2.2.1, h2]
  · rintro ⟨d, hd, r, hr, hrole, hkey, hb⟩
    refine ⟨(d.role, d.memory_key), (dedup_keys_mem role_deltas _).mpr ⟨d, hd, rfl⟩, ?_⟩
    intro hnone
    rw [Option.map_eq_none'] at hnone
    rw [newest_version_above_none_iff] at hnone
    exact hnone r hr ⟨hrole, hkey, hb⟩

theorem detect_conflicts_congr (s s1 : EngineState) (b : Option Nat)
    (rd : List NormDelta) (hmv : s1.memory_version = s.memory_version)
    (hrv : s1.role_state_versions = s.role_state_versions) :
    detect_conflicts s1 b rd = detect_conflicts s b rd := by
  unfold detect_conflicts
  rw [hmv, hrv]

theorem detect_conflicts_mem (s : EngineState) (base : Nat)
    (rd : List NormDelta) (hbase : base < s.memory_version) (c : Conflict)
    (hc : c ∈ detect_conflicts s (some base) rd) :
    ∃ r, IsNewestAbove s.role_state_versions c.role c.memory_key base r ∧
      c.theirs = r.value ∧ c.current_version = r.memory_version ∧
      c.updated_by_client = r.created_by_client ∧ c.base_version = base ∧
      c.updated_seq = r.created_seq ∧ c.version_id = r.version_id := by
  rw [detect_conflicts_eq s base rd hbase, List.mem_filterMap] at hc
  obtain ⟨k, hk, hmap⟩ := hc
  rcases hnv : newest_version_above s.role_state_versions k.1 k.2 base with _ | r
  · rw [hnv] at hmap
    exact Option.noConfusion hmap
  · rw [hnv] at hmap
    injection hmap with hmap
    subst hmap
    exact ⟨r, newest_version_above_some _ _ _ _ _ hnv, rfl, rfl, rfl, rfl, rfl, rfl⟩

theorem detect_conflicts_complete (s : EngineState) (base : Nat)
    (rd : List NormDelta) (hbase : base < s.memory_version) (d : NormDelta)
    (hd : d ∈ rd)
    (hex : ∃ r ∈ s.role_state_versions, r.role = d.role ∧
      r.memory_key = d.memory_key ∧ base < r.memory_version) :
    ∃ c ∈ detect_conflicts s (some base) rd,
      c.role = d.role ∧ c.memory_key = d.memory_key ∧
      ∃ r, IsNewestAbove s.role_state_versions d.role d.memory_key base r ∧
        c.theirs = r.value ∧ c.current_version = r.memory_version ∧
        c.updated_by_client = r.created_by_client ∧ c.base_version = base := by
  have hk : (d.role, d.memory_key) ∈ dedup_keys rd :=
    (dedup_keys_mem rd _).mpr ⟨d, hd, rfl⟩
  rcases hnv : newest_version_above s.role_state_versions d.role d.memory_key base
      with _ | r
  · rw [newest_version_above_none_iff] at hnv
    obtain ⟨r0, hr0, hr0p⟩ := hex
    exact absurd hr0p (hnv r0 hr0)
  · have hspec := newest_version_above_some _ _ _ _ _ hnv
    rw [detect_conflicts_eq s base rd hbase]
    refine ⟨{ role := d.role, memory_key := d.memory_key, base_version := base,
              current_version := r.memory_version, theirs := r.value,
              updated_seq := r.created_seq,
              updated_by_client := r.created_by_client,
              version_id := r.version_id },
      ?_, rfl, rfl, r, hspec, rfl, rfl, rfl, rfl⟩
    rw [List.mem_filterMap]
    refine ⟨(d.role, d.memory_key), hk, ?_⟩
    show ((newest_version_above s.role_state_versions d.role d.memory_key base).map
      fun row => ({ role := d.role, memory_key := d.memory_key, base_version := base,
                    current_version := row.memory_version, theirs := row.value,
                    updated_seq := row.created_seq,
                    updated_by_client := row.created_by_client,
                    version_id := row.version_id } : Conflict)) = _
    rw [hnv]
    rfl

/-- C2: a push whose stamp parses to `base < memory_version` returns
`needs_resolution` with a non-empty `conflicts[]` exactly when some
payload key has a `RoleStateVersions` row above `base`; every conflict
entry describes the newest above-base row of its key, and every payload
delta whose `(role, memory_key)` has such a row gets a conflict entry
for that exact key describing its newest row; the push audits with
`CONFLICT_DETECTED` and writes no role delta and no version bump;
with no such row the push applies normally. -/
theorem push_conflict_detection (s : EngineState) (a v : PushArgs) (base : Nat)
    (s1 : EngineState)
    (hval : validate_push_payload a = .ok v)
    (hparse : parse_context_stamp v.context_stamp = .ok (some base))
    (hws : resolve_project_workspace s a.workspace = .ok s1)
    (hbase : base < s.memory_version) :
    ∃ resp s2, session_sync_push s a = (.ok resp, s2) ∧
      ((∃ d ∈ _normalize_role_deltas v.role_deltas v.decisions_delta,
          ∃ r ∈ s.role_state_versions, r.role = d.role ∧
            r.memory_key = d.memory_key ∧ base < r.memory_version) →
        resp.status = .needs_resolution ∧ resp.conflicts ≠ [] ∧
        (∀ c ∈ resp.conflicts,
          ∃ r, IsNewestAbove s.role_state_versions c.role c.memory_key base r ∧
            c.theirs = r.value ∧ c.current_version = r.memory_version ∧
            c.updated_by_client = r.created_by_client ∧ c.base_version = base) ∧
        (∀ d ∈ _normalize_role_deltas v.role_deltas v.decisions_delta,
          (∃ r ∈ s.role_state_versions, r.role = d.role ∧
            r.memory_key = d.memory_key ∧ base < r.memory_version) →
          ∃ c ∈ resp.conflicts, c.role = d.role ∧ c.memory_key = d.memory_key ∧
            ∃ r, IsNewestAbove s.role_state_versions d.role d.memory_key base r ∧
              c.theirs = r.value ∧ c.current_version = r.memory_version ∧
              c.updated_by_client = r.created_by_client ∧ c.base_version = base) ∧
        s2.memory_version = s.memory_version ∧
        s2.role_state_versions = s.role_state_versions ∧
        s2.role_state_current = s.role_state_current ∧
        (∃ arow ∈ s2.sync_audit, arow.error_code = some "CONFLICT_DETECTED")) ∧
      ((¬ ∃ d ∈ _normalize_role_deltas v.role_deltas v.decisions_delta,
          ∃ r ∈ s.role_state_versions, r.role = d.role ∧
            r.memory_key = d.memory_key ∧ base < r.memory_version) →
        resp.status = .ok ∧ resp.conflicts = [] ∧
        s2.memory_version = s.memory_version + 1) := by
  obtain ⟨hmv1, hrv1, hrc1, hsa1, hns1⟩ :=
    resolve_project_workspace_ok_fields s a.workspace s1 hws
  have hpush : session_sync_push s a =
      (.ok (push_transaction s1 v (some base)).1, (push_transaction s1 v (some base)).2) := by
    rw [session_sync_push_validated s a v hval,
      push_after_validate_parsed s a v (some base) hparse,
      push_after_parse_ws_ok s a v (some base) s1 hws]
  have hbase1 : base < s1.memory_version := by rw [hmv1]; exact hbase
  have hcong : detect_conflicts s1 (some base)
      (_normalize_role_deltas v.role_deltas v.decisions_delta) =
      detect_conflicts s (some base)
      (_normalize_role_deltas v.role_deltas v.decisions_delta) :=
    detect_conflicts_congr s s1 (some base) _ hmv1 hrv1
  refine ⟨_, _, hpush, ?_, ?_⟩
  · intro hex
    have hne : detect_conflicts s (some base)
        (_normalize_role_deltas v.role_deltas v.decisions_delta) ≠ [] :=
      (detect_conflicts_ne_nil_iff s base _ hbase).mpr hex
    have hne1 : detect_conflicts s1 (some base)
        (_normalize_role_deltas v.role_deltas v.decisions_delta) ≠ [] := by
      rw [hcong]; exact hne
    obtain ⟨h1, h2, h3, h4, h5, h6, h7⟩ :=
      push_transaction_conflict s1 v (some base) _ rfl hne1
    refine ⟨h1, ?_, ?_, ?_, ?_, ?_, ?_, ?_⟩
    · rw [h2, hcong]; exact hne
    · intro c hc
      rw [h2, hcong] at hc
      obtain ⟨r, hr, ht, hcv, hub, hb, _, _⟩ := detect_conflicts_mem s base _ hbase c hc
      exact ⟨r, hr, ht, hcv, hub, hb⟩
    · intro d hd hexd
      obtain ⟨cc, hcc, hccr, hcck, hrest⟩ :=
        detect_conflicts_complete s base _ hbase d hd hexd
      refine ⟨cc, ?_, hccr, hcck, hrest⟩
      rw [h2, hcong]
      exact hcc
    · rw [h4, hmv1]
    · rw [h5, hrv1]
    · rw [h6, hrc1]
    · have hmem :
          ({ sync_id := s1.next_seq, direction := "push",
             client_id := v.client_id, session_id := v.session_id,
             error_code := some "CONFLICT_DETECTED",
             created_seq := s1.next_seq + 1 } : AuditRow) ∈
          (push_transaction s1 v (some base)).2.sync_audit := by
        rw [h7]
        exact List.mem_append_right _ (List.mem_singleton.mpr rfl)
      exact ⟨_, hmem, rfl⟩
  · intro hnex
    have h0 : detect_conflicts s (some base)
        (_normalize_role_deltas v.role_deltas v.decisions_delta) = [] := by
      by_contra hne
      exact hnex ((detect_conflicts_ne_nil_iff s base _ hbase).mp hne)
    have h01 : detect_conflicts s1 (some base)
        (_normalize_role_deltas v.role_deltas v.decisions_delta) = [] := by
      rw [hcong]; exact h0
    obtain ⟨h1, h2, h3, h4⟩ := push_transaction_ok s1 v (some base) h01
    exact ⟨h1, h2, by rw [h4, hmv1]⟩

theorem push_conflict_detection_witness :
    0 < sample_history_state.memory_version ∧
    (∃ resp s2,
      session_sync_push sample_history_state conflicting_push_args = (.ok resp, s2) ∧
      ((∃ d ∈ _normalize_role_deltas conflicting_push_args.role_deltas
            conflicting_push_args.decisions_delta,
          ∃ r ∈ sample_history_state.role_state_versions, r.role = d.role ∧
            r.memory_key = d.memory_key ∧ 0 < r.memory_version) →
        resp.status = .needs_resolution ∧ resp.conflicts ≠ [] ∧
        (∀ c ∈ resp.conflicts,
          ∃ r, IsNewestAbove sample_history_state.role_state_versions
              c.role c.memory_key 0 r ∧
            c.theirs = r.value ∧ c.current_version = r.memory_version ∧
            c.updated_by_client = r.created_by_client ∧ c.base_version = 0) ∧
        (∀ d ∈ _normalize_role_deltas conflicting_push_args.role_deltas
            conflicting_push_args.decisions_delta,
          (∃ r ∈ sample_history_state.role_state_versions, r.role = d.role ∧
            r.memory_key = d.memory_key ∧ 0 < r.memory_version) →
          ∃ c ∈ resp.conflicts, c.role = d.role ∧ c.memory_key = d.memory_key ∧
            ∃ r, IsNewestAbove sample_history_state.role_state_versions
                d.role d.memory_key 0 r ∧
              c.theirs = r.value ∧ c.current_version = r.memory_version ∧
              c.updated_by_client = r.created_by_client ∧ c.base_version = 0) ∧
        s2.memory_version = sample_history_state.memory_version ∧
        s2.role_state_versions = sample_history_state.role_state_versions ∧
        s2.role_state_current = sample_history_state.role_state_current ∧
        (∃ arow ∈ s2.sync_audit, arow.error_code = some "CONFLICT_DETECTED")) ∧
      ((¬ ∃ d ∈ _normalize_role_deltas conflicting_push_args.role_deltas
            conflicting_push_args.decisions_delta,
          ∃ r ∈ sample_history_state.role_state_versions, r.role = d.role ∧
            r.memory_key = d.memory_key ∧ 0 < r.memory_version) →
        resp.status = .ok ∧ resp.conflicts = [] ∧
        s2.memory_version = sample_history_state.memory_version + 1)) :=
  ⟨by decide,
   push_conflict_detection sample_history_state conflicting_push_args
     conflicting_push_args 0 _ rfl rfl rfl (by decide)⟩

/-! ### The current-equals-max invariant (C3) -/

theorem rows_for_key_append (rows : List VersionRow) (nr : VersionRow)
    (role : Role) (memory_key : String) :
    rows_for_key (rows ++ [nr]) role memory_key =
      rows_for_key rows role memory_key ++ rows_for_key [nr] role memory_key := by
  unfold rows_for_key
  rw [List.filter_append]

theorem rows_for_key_subset (rows : List VersionRow) (role : Role)
    (memory_key : String) : ∀ r ∈ rows_for_key rows role memory_key, r ∈ rows := by
  intro r hr
  unfold rows_for_key at hr
  exact List.mem_of_mem_filter hr

theorem max_mv_append_other (rows : List VersionRow) (nr : VersionRow)
    (role : Role) (memory_key : String)
    (h : ¬(nr.role = role ∧ nr.memory_key = memory_key)) :
    max_mv (rows ++ [nr]) role memory_key = max_mv rows role memory_key := by
  unfold max_mv
  rw [rows_for_key_append]
  have h2 : rows_for_key [nr] role memory_key = [] := by
    unfold rows_for_key
    simp only [List.filter_cons, List.filter_nil, decide_eq_true_eq]
    rw [if_neg h]
  rw [h2, List.append_nil]

theorem foldl_max_le (m : Nat) : ∀ (l : List Nat) (a : Nat), a ≤ m →
    (∀ x ∈ l, x ≤ m) → l.foldl Nat.max a ≤ m := by
  intro l
  induction l with
  | nil => intro a ha _; exact ha
  | cons x l ih =>
    intro a ha hl
    rw [List.foldl_cons]
    exact ih (Nat.max a x)
      (Nat.max_le.mpr ⟨ha, hl x (List.mem_cons_self x l)⟩)
      (fun y hy => hl y (List.mem_cons_of_mem x hy))

theorem max_mv_append_same (rows : List VersionRow) (nr : VersionRow)
    (role : Role) (memory_key : String)
    (hrole : nr.role = role) (hkey : nr.memory_key = memory_key)
    (hb : ∀ r ∈ rows, r.memory_version ≤ nr.memory_version) :
    max_mv (rows ++ [nr]) role memory_key = nr.memory_version := by
  unfold max_mv
  rw [rows_for_key_append]
  have h2 : rows_for_key [nr] role memory_key = [nr] := by
    unfold rows_for_key
    simp only [List.filter_cons, List.filter_nil, decide_eq_true_eq]
    rw [if_pos ⟨hrole, hkey⟩]
  rw [h2, List.map_append, List.foldl_append]
  show Nat.max
    (((rows_for_key rows role memory_key).map fun r => r.memory_version).foldl
      Nat.max 0) nr.memory_version = nr.memory_version
  apply Nat.max_eq_right
  apply foldl_max_le
  · exact Nat.zero_le _
  · intro x hx
    rw [List.mem_map] at hx
    obtain ⟨r, hr, rfl⟩ := hx
    exact hb r (rows_for_key_subset rows role memory_key r hr)

theorem upsert_current_mem (cur : List CurrentRow) (row c : CurrentRow) :
    c ∈ upsert_current cur row ↔
      (c = row ∨ (c ∈ cur ∧ ¬(c.role = row.role ∧ c.memory_key = row.memory_key))) := by
  unfold upsert_current
  by_cases hany :
      cur.any (fun c => decide (c.role = row.role ∧ c.memory_key = row.memory_key)) = true
  · rw [if_pos hany]
    rw [List.any_eq_true] at hany
    obtain ⟨c0, hc0, hc0m⟩ := hany
    rw [decide_eq_true_eq] at hc0m
    rw [List.mem_map]
    constructor
    · rintro ⟨c1, hc1, hc1e⟩
      by_cases hm : c1.role = row.role ∧ c1.memory_key = row.memory_key
      · rw [if_pos hm] at hc1e
        exact Or.inl hc1e.symm
      · rw [if_neg hm] at hc1e
        subst hc1e
        exact Or.inr ⟨hc1, hm⟩
    · rintro (rfl | ⟨hc, hm⟩)
      · exact ⟨c0, hc0, by rw [if_pos hc0m]⟩
      · exact ⟨c, hc, by rw [if_neg hm]⟩
  · rw [if_neg hany]
    have hall : ∀ x ∈ cur, ¬(x.role = row.role ∧ x.memory_key = row.memory_key) := by
      intro x hx hm
      exact hany (List.any_eq_true.mpr ⟨x, hx, decide_eq_true hm⟩)
    rw [List.mem_append, List.mem_singleton]
    constructor
    · rintro (hc | rfl)
      · exact Or.inr ⟨hc, hall c hc⟩
      · exact Or.inl rfl
    · rintro (rfl | ⟨hc, _⟩)
      · exact Or.inr rfl
      · exact Or.inl hc

theorem upsert_current_uniq (cur : List CurrentRow) (row : CurrentRow)
    (h : ∀ c1 ∈ cur, ∀ c2 ∈ cur, c1.role = c2.role → c1.memory_key = c2.memory_key →
      c1 = c2) :
    ∀ c1 ∈ upsert_current cur row, ∀ c2 ∈ upsert_current cur row,
      c1.role = c2.role → c1.memory_key = c2.memory_key → c1 = c2 := by
  intro c1 h1 c2 h2 hrole hkey
  rw [upsert_current_mem] at h1 h2
  rcases h1 with rfl | ⟨h1m, h1n⟩
  · rcases h2 with rfl | ⟨h2m, h2n⟩
    · rfl
    · exact absurd ⟨hrole.symm, hkey.symm⟩ h2n
  · rcases h2 with rfl | ⟨h2m, h2n⟩
    · exact absurd ⟨hrole, hkey⟩ h1n
    · exact h c1 h1m c2 h2m hrole hkey

theorem upsert_role_delta_versions (s : EngineState) (cid : String) (mv : Nat)
    (d : NormDelta) :
    (upsert_role_delta s cid mv d).2.role_state_versions =
      s.role_state_versions ++
        [{ version_id := s.next_seq, role := d.role, memory_key := d.memory_key,
           value := d.value, confidence := d.confidence, created_seq := s.next_seq,
           created_by_client := cid, source_refs := d.source_refs,
           supersedes_version_id :=
             _latest_version_id s.role_state_versions d.role d.memory_key,
           memory_version := mv }] := rfl

theorem upsert_role_delta_current (s : EngineState) (cid : String) (mv : Nat)
    (d : NormDelta) :
    (upsert_role_delta s cid mv d).2.role_state_current =
      upsert_current s.role_state_current
        { role := d.role, memory_key := d.memory_key, value := d.value,
          confidence := d.confidence, version := mv, updated_seq := s.next_seq,
          updated_by_client := cid, source_refs := d.source_refs } := rfl

theorem upsert_role_delta_inv (s : EngineState) (cid : String) (mv : Nat)
    (d : NormDelta)
    (hb : ∀ r ∈ s.role_state_versions, r.memory_version ≤ mv)
    (ht : TableInv s.role_state_versions s.role_state_current) :
    (∀ r ∈ (upsert_role_delta s cid mv d).2.role_state_versions,
      r.memory_version ≤ mv) ∧
    TableInv (upsert_role_delta s cid mv d).2.role_state_versions
      (upsert_role_delta s cid mv d).2.role_state_current := by
  obtain ⟨huniq, hkey⟩ := ht
  refine ⟨?_, ?_, ?_⟩
  · intro r hr
    rw [upsert_role_delta_versions, List.mem_append, List.mem_singleton] at hr
    rcases hr with hr | rfl
    · exact hb r hr
    · exact Nat.le_refl mv
  · rw [upsert_role_delta_current]
    exact upsert_current_uniq _ _ huniq
  · intro role memory_key hex
    rw [upsert_role_delta_versions] at hex ⊢
    rw [upsert_role_delta_current]
    by_cases hk : d.role = role ∧ d.memory_key = memory_key
    · refine ⟨{ role := d.role, memory_key := d.memory_key, value := d.value,
                confidence := d.confidence, version := mv,
                updated_seq := s.next_seq, updated_by_client := cid,
                source_refs := d.source_refs },
        ?_, hk.1, hk.2, ?_⟩
      · rw [upsert_current_mem]
        exact Or.inl rfl
      · rw [max_mv_append_same _ _ _ _ hk.1 hk.2 hb]
    · obtain ⟨r0, hr0, hr0k⟩ := hex
      rw [List.mem_append, List.mem_singleton] at hr0
      rcases hr0 with hr0 | rfl
      · obtain ⟨cc, hc, hcr, hck, hcv⟩ := hkey role memory_key ⟨r0, hr0, hr0k⟩
        refine ⟨cc, ?_, hcr, hck, ?_⟩
        · rw [upsert_current_mem]
          refine Or.inr ⟨hc, ?_⟩
          intro hm
          exact hk ⟨hm.1.symm.trans hcr, hm.2.symm.trans hck⟩
        · rw [hcv, max_mv_append_other]
          exact fun hm => hk hm
      · exact absurd hr0k hk

theorem apply_role_deltas_fold_inv (cid : String) (mv : Nat) :
    ∀ (deltas : List NormDelta) (acc : List AppliedDelta × EngineState),
      (∀ r ∈ acc.2.role_state_versions, r.memory_version ≤ mv) →
      TableInv acc.2.role_state_versions acc.2.role_state_current →
      (∀ r ∈ ((deltas.foldl (apply_one_delta cid mv) acc).2).role_state_versions,
        r.memory_version ≤ mv) ∧
      TableInv ((deltas.foldl (apply_one_delta cid mv) acc).2).role_state_versions
        ((deltas.foldl (apply_one_delta cid mv) acc).2).role_state_current := by
  intro deltas
  induction deltas with
  | nil => intro acc hb ht; exact ⟨hb, ht⟩
  | cons d rest ih =>
    intro acc hb ht
    rw [List.foldl_cons]
    have hstep := upsert_role_delta_inv acc.2 cid mv d hb ht
    exact ih (apply_one_delta cid mv acc d) hstep.1 hstep.2

theorem roleinv_congr (s t : EngineState)
    (hmv : t.memory_version = s.memory_version)
    (hv : t.role_state_versions = s.role_state_versions)
    (hc : t.role_state_current = s.role_state_current)
    (h : RoleInv s) : RoleInv t := by
  unfold RoleInv at h ⊢
  rw [hmv, hv, hc]
  exact h

theorem push_transaction_tables (s : EngineState) (v : PushArgs)
    (base : Option Nat)
    (hc : detect_conflicts s base
      (_normalize_role_deltas v.role_deltas v.decisions_delta) = []) :
    (push_transaction s v base).2.role_state_versions =
      (apply_role_deltas
        { s with next_seq := s.next_seq + 1, memory_version := s.memory_version + 1 }
        v.client_id (s.memory_version + 1)
        (_normalize_role_deltas v.role_deltas v.decisions_delta)).2.role_state_versions ∧
    (push_transaction s v base).2.role_state_current =
      (apply_role_deltas
        { s with next_seq := s.next_seq + 1, memory_version := s.memory_version + 1 }
        v.client_id (s.memory_version + 1)
        (_normalize_role_deltas v.role_deltas v.decisions_delta)).2.role_state_current := by
  simp only [push_transaction]
  rw [hc, if_neg (fun h => h rfl)]
  constructor
  · rw [insert_sync_audit_versions, insert_consistency_link_versions,
      enqueue_catalog_job_versions, insert_handoff_packet_versions,
      (close_open_loops_untouched _ _ _ _).2.1,
      (insert_open_loops_untouched _ _ _ _).2.1]
    rfl
  · rw [insert_sync_audit_current, insert_consistency_link_current,
      enqueue_catalog_job_current, insert_handoff_packet_current,
      (close_open_loops_untouched _ _ _ _).2.2,
      (insert_open_loops_untouched _ _ _ _).2.2]
    rfl

theorem push_transaction_roleinv (s : EngineState) (v : PushArgs)
    (base : Option Nat) (hinv : RoleInv s) :
    RoleInv (push_transaction s v base).2 := by
  unfold RoleInv at hinv
  obtain ⟨hb, ht⟩ := hinv
  by_cases hc : detect_conflicts s base
      (_normalize_role_deltas v.role_deltas v.decisions_delta) = []
  · have hmv := (push_transaction_ok s v base hc).2.2.2
    obtain ⟨hv, hcur⟩ := push_transaction_tables s v base hc
    have hb1 : ∀ r ∈ ({ s with next_seq := s.next_seq + 1, memory_version := s.memory_version + 1 } : EngineState).role_state_versions, r.memory_version ≤ s.memory_version + 1 :=
      fun r hr => Nat.le_succ_of_le (hb r hr)
    have happ := apply_role_deltas_fold_inv v.client_id (s.memory_version + 1)
      (_normalize_role_deltas v.role_deltas v.decisions_delta)
      ([], { s with next_seq := s.next_seq + 1, memory_version := s.memory_version + 1 }) hb1 ht
    unfold RoleInv
    refine ⟨?_, ?_⟩
    · intro r hr
      rw [hv] at hr
      rw [hmv]
      exact happ.1 r hr
    · rw [hv, hcur]
      exact happ.2
  · have h := push_transaction_conflict s v base _ rfl hc
    exact roleinv_congr s _ h.2.2.2.1 h.2.2.2.2.1 h.2.2.2.2.2.1 ⟨hb, ht⟩

theorem session_sync_push_roleinv (s : EngineState) (a : PushArgs)
    (h : RoleInv s) : RoleInv (session_sync_push s a).2 := by
  rcases hval : validate_push_payload a with e | v
  · rw [session_sync_push_val_error s a e hval]
    exact h
  · rw [session_sync_push_validated s a v hval]
    rcases hparse : parse_context_stamp v.context_stamp with e | base
    · rw [push_after_validate_parse_error s a v e hparse]
      exact h
    · rw [push_after_validate_parsed s a v base hparse]
      rcases hws : resolve_project_workspace s a.workspace with e | s1
      · rw [push_after_parse_ws_error s a v base e hws]
        exact h
      · rw [push_after_parse_ws_ok s a v base s1 hws]
        obtain ⟨hmv1, hrv1, hrc1, _, _⟩ :=
          resolve_project_workspace_ok_fields s a.workspace s1 hws
        exact push_transaction_roleinv s1 v base (roleinv_congr s s1 hmv1 hrv1 hrc1 h)

theorem resolve_accept_theirs_roleinv (s : EngineState) (ra : ResolveArgs)
    (h : RoleInv s) : RoleInv (resolve_accept_theirs s ra).2 := by
  refine roleinv_congr s _ ?_ ?_ ?_ h <;> rfl

theorem step_roleinv (s : EngineState) (op : Op) (h : RoleInv s) :
    RoleInv (step s op) := by
  rcases op with a | ra | ⟨cid, sid⟩
  · exact session_sync_push_roleinv s a h
  · show RoleInv (session_sync_resolve_conflict s ra).2
    rcases hreq : _required_resolve ra with e | u
    · rw [resolve_required_error s ra e hreq]
      exact h
    · rw [resolve_required_ok s ra hreq]
      rcases hstrat : ra.strategy
      · rw [resolve_by_strategy_accept s ra hstrat]
        exact resolve_accept_theirs_roleinv s ra h
      · rw [resolve_by_strategy_keep s ra hstrat]
        unfold resolve_keep_mine
        rw [resolve_from_push_state]
        exact session_sync_push_roleinv s _ h
      · rw [resolve_by_strategy_merge s ra hstrat]
        unfold resolve_merge_note
        rw [resolve_from_push_state]
        exact session_sync_push_roleinv s _ h
  · refine roleinv_congr s (step s (.pull cid sid)) ?_ ?_ ?_ h <;> rfl

theorem run_ops_roleinv : ∀ (ops : List Op) (s : EngineState),
    RoleInv s → RoleInv (run_ops s ops) := by
  intro ops
  induction ops with
  | nil => intro s h; exact h
  | cons op rest ih =>
    intro s h
    exact ih (step s op) (step_roleinv s op h)

theorem init_state_roleinv : RoleInv init_state := by
  unfold RoleInv
  refine ⟨?_, ?_, ?_⟩
  · intro r hr
    exact absurd hr (List.not_mem_nil r)
  · intro c1 h1
    exact absurd h1 (List.not_mem_nil c1)
  · rintro role k ⟨r, hr, -⟩
    exact absurd hr (List.not_mem_nil r)

/-- C3: after any sequence of engine operations, every
`(role, memory_key)` with at least one `role_state_versions` row has a
`role_state_current` row whose `version` equals the largest
`memory_version` among the key's version rows. -/
theorem current_version_is_max (ops : List Op) (role : Role) (memory_key : String)
    (h : ∃ r ∈ (run_ops init_state ops).role_state_versions,
      r.role = role ∧ r.memory_key = memory_key) :
    ∃ c ∈ (run_ops init_state ops).role_state_current,
      c.role = role ∧ c.memory_key = memory_key ∧
      c.version = max_mv (run_ops init_state ops).role_state_versions
        role memory_key := by
  have h2 := run_ops_roleinv ops init_state init_state_roleinv
  unfold RoleInv at h2
  exact h2.2.2 role memory_key h

theorem current_version_is_max_witness :
    (∃ r ∈ (run_ops init_state [.push sample_push_args]).role_state_versions,
      r.role = .pm ∧ r.memory_key = "goal") ∧
    ∃ c ∈ (run_ops init_state [.push sample_push_args]).role_state_current,
      c.role = .pm ∧ c.memory_key = "goal" ∧
      c.version = max_mv
        (run_ops init_state [.push sample_push_args]).role_state_versions
        .pm "goal" :=
  ⟨by decide, current_version_is_max [.push sample_push_args] .pm "goal" (by decide)⟩

/-! ### Legacy and structured stamps (C4) -/

theorem validate_push_payload_err (a : PushArgs) (e : BErr)
    (h : _require_non_empty_string a.client_id = .error e) :
    validate_push_payload a = .error e := by
  unfold validate_push_payload
  rw [h]

theorem validate_push_payload_ok (a : PushArgs) (cidv : String)
    (h : _require_non_empty_string a.client_id = .ok cidv) :
    validate_push_payload a = validate_push_b a cidv := by
  unfold validate_push_payload
  rw [h]

theorem validate_push_b_err (a : PushArgs) (cidv : String) (e : BErr)
    (h : _require_non_empty_string a.session_id = .error e) :
    validate_push_b a cidv = .error e := by
  unfold validate_push_b
  rw [h]

theorem validate_push_b_ok (a : PushArgs) (cidv sidv : String)
    (h : _require_non_empty_string a.session_id = .ok sidv) :
    validate_push_b a cidv = validate_push_c a cidv sidv := by
  unfold validate_push_b
  rw [h]

theorem validate_push_c_err (a : PushArgs) (cidv sidv : String) (e : BErr)
    (h : _require_non_empty_string a.session_summary = .error e) :
    validate_push_c a cidv sidv = .error e := by
  unfold validate_push_c
  rw [h]

theorem validate_push_c_ok (a : PushArgs) (cidv sidv ssv : String)
    (h : _require_non_empty_string a.session_summary = .ok ssv) :
    validate_push_c a cidv sidv = validate_push_finish a cidv sidv ssv := by
  unfold validate_push_c
  rw [h]

theorem validate_push_finish_err (a : PushArgs) (cidv sidv ssv : String) (e : BErr)
    (h : validate_checks a = .error e) :
    validate_push_finish a cidv sidv ssv = .error e := by
  unfold validate_push_finish
  rw [h]

theorem validate_push_finish_ok (a : PushArgs) (cidv sidv ssv : String)
    (h : validate_checks a = .ok ()) :
    validate_push_finish a cidv sidv ssv =
      .ok { a with client_id := cidv, session_id := sidv, session_summary := ssv } := by
  unfold validate_push_finish
  rw [h]

theorem validate_checks_stamp_congr (a : PushArgs) (c1 c2 : ContextStamp)
    (h : _validate_context_stamp c1 = _validate_context_stamp c2) :
    validate_checks { a with context_stamp := c1 } =
      validate_checks { a with context_stamp := c2 } := by
  unfold validate_checks
  rw [h]

theorem validate_push_payload_keeps_stamp (a v : PushArgs)
    (h : validate_push_payload a = .ok v) : v.context_stamp = a.context_stamp := by
  rcases hc : _require_non_empty_string a.client_id with e | cidv
  · rw [validate_push_payload_err a e hc] at h
    exact Except.noConfusion h
  · rw [validate_push_payload_ok a cidv hc] at h
    rcases hs : _require_non_empty_string a.session_id with e | sidv
    · rw [validate_push_b_err a cidv e hs] at h
      exact Except.noConfusion h
    · rw [validate_push_b_ok a cidv sidv hs] at h
      rcases hss : _require_non_empty_string a.session_summary with e | ssv
      · rw [validate_push_c_err a cidv sidv e hss] at h
        exact Except.noConfusion h
      · rw [validate_push_c_ok a cidv sidv ssv hss] at h
        rcases hk : validate_checks a with e | u
        · rw [validate_push_finish_err a cidv sidv ssv e hk] at h
          exact Except.noConfusion h
        · rcases u
          rw [validate_push_finish_ok a cidv sidv ssv hk] at h
          injection h with h
          subst h
          rfl

theorem validate_push_payload_stamp_congr (a : PushArgs) (c1 c2 : ContextStamp)
    (h : _validate_context_stamp c1 = _validate_context_stamp c2) :
    validate_push_payload { a with context_stamp := c1 } =
      match validate_push_payload { a with context_stamp := c2 } with
      | .error e => .error e
      | .ok v => .ok { v with context_stamp := c1 } := by
  rcases hc : _require_non_empty_string a.client_id with e | cidv
  · rw [validate_push_payload_err { a with context_stamp := c1 } e hc,
      validate_push_payload_err { a with context_stamp := c2 } e hc]
  · rw [validate_push_payload_ok { a with context_stamp := c1 } cidv hc,
      validate_push_payload_ok { a with context_stamp := c2 } cidv hc]
    rcases hs : _require_non_empty_string a.session_id with e | sidv
    · rw [validate_push_b_err { a with context_stamp := c1 } cidv e hs,
        validate_push_b_err { a with context_stamp := c2 } cidv e hs]
    · rw [validate_push_b_ok { a with context_stamp := c1 } cidv sidv hs,
        validate_push_b_ok { a with context_stamp := c2 } cidv sidv hs]
      rcases hss : _require_non_empty_string a.session_summary with e | ssv
      · rw [validate_push_c_err { a with context_stamp := c1 } cidv sidv e hss,
          validate_push_c_err { a with context_stamp := c2 } cidv sidv e hss]
      · rw [validate_push_c_ok { a with context_stamp := c1 } cidv sidv ssv hss,
          validate_push_c_ok { a with context_stamp := c2 } cidv sidv ssv hss]
        have hchk := validate_checks_stamp_congr a c1 c2 h
        rcases hk : validate_checks { a with context_stamp := c2 } with e | u
        · rw [validate_push_finish_err { a with context_stamp := c1 } cidv sidv ssv e
            (hchk.trans hk),
            validate_push_finish_err { a with context_stamp := c2 } cidv sidv ssv e hk]
        · rcases u
          rw [validate_push_finish_ok { a with context_stamp := c1 } cidv sidv ssv
            (hchk.trans hk),
            validate_push_finish_ok { a with context_stamp := c2 } cidv sidv ssv hk]

theorem push_transaction_stamp_congr (s : EngineState) (v : PushArgs)
    (c : ContextStamp) (base : Option Nat) :
    push_transaction s { v with context_stamp := c } base =
      push_transaction s v base := rfl

/-- C4: the legacy stamp string `"v" ++ N` parses to the same base
version as the structured stamp `{memory_version: N}`, and a push
carrying either form returns the same response and the same resulting
state. -/
theorem legacy_stamp_push_equiv (s : EngineState) (a : PushArgs) (n : Nat) :
    parse_context_stamp (.legacy ("v" ++ Nat.repr n)) = .ok (some n) ∧
    parse_context_stamp (.stamp (some (Int.ofNat n))) = .ok (some n) ∧
    session_sync_push s { a with context_stamp := .legacy ("v" ++ Nat.repr n) } =
      session_sync_push s { a with context_stamp := .stamp (some (Int.ofNat n)) } := by
  refine ⟨parse_context_stamp_legacy n, parse_context_stamp_structured n, ?_⟩
  have hvcs : _validate_context_stamp (.legacy ("v" ++ Nat.repr n)) =
      _validate_context_stamp (.stamp (some (Int.ofNat n))) := by
    have h2 : _validate_context_stamp (.stamp (some (Int.ofNat n))) =
        if (Int.ofNat n) < 0 then .error { error_code := "INVALID_CONTEXT_STAMP" }
        else .ok () := rfl
    rw [h2, if_neg (int_ofNat_not_neg n)]
    rfl
  have hcong := validate_push_payload_stamp_congr a
    (.legacy ("v" ++ Nat.repr n)) (.stamp (some (Int.ofNat n))) hvcs
  rcases hval : validate_push_payload
      { a with context_stamp := .stamp (some (Int.ofNat n)) } with e | v
  · rw [hval] at hcong
    rw [session_sync_push_val_error _ _ e hcong,
      session_sync_push_val_error _ _ e hval]
  · rw [hval] at hcong
    rw [session_sync_push_validated _ _ _ hcong,
      session_sync_push_validated _ _ _ hval]
    have hvs : v.context_stamp = ContextStamp.stamp (some (Int.ofNat n)) :=
      validate_push_payload_keeps_stamp _ v hval
    have hp1 : parse_context_stamp
        (({ v with context_stamp := ContextStamp.legacy ("v" ++ Nat.repr n) }
          : PushArgs).context_stamp) = .ok (some n) := parse_context_stamp_legacy n
    have hp2 : parse_context_stamp v.context_stamp = .ok (some n) := by
      rw [hvs]
      exact parse_context_stamp_structured n
    rw [push_after_validate_parsed s _ _ (some n) hp1,
      push_after_validate_parsed s _ _ (some n) hp2]
    rcases hws : resolve_project_workspace s a.workspace with e | s1
    · rw [push_after_parse_ws_error s
          { a with context_stamp := ContextStamp.legacy ("v" ++ Nat.repr n) }
          { v with context_stamp := ContextStamp.legacy ("v" ++ Nat.repr n) }
          (some n) e hws,
        push_after_parse_ws_error s
          { a with context_stamp := ContextStamp.stamp (some (Int.ofNat n)) }
          v (some n) e hws]
    · rw [push_after_parse_ws_ok s
          { a with context_stamp := ContextStamp.legacy ("v" ++ Nat.repr n) }
          { v with context_stamp := ContextStamp.legacy ("v" ++ Nat.repr n) }
          (some n) s1 hws,
        push_after_parse_ws_ok s
          { a with context_stamp := ContextStamp.stamp (some (Int.ofNat n)) }
          v (some n) s1 hws]
      rw [push_transaction_stamp_congr s1 v (.legacy ("v" ++ Nat.repr n)) (some n)]

/-! ### High base versions are forced pushes (C10) -/

theorem detect_conflicts_high_base (s : EngineState) (base : Nat)
    (hbase : s.memory_version ≤ base) (rd : List NormDelta) :
    detect_conflicts s (some base) rd = [] := by
  unfold detect_conflicts
  exact if_pos hbase

theorem push_transaction_no_conflict_base (s : EngineState) (v : PushArgs)
    (base : Option Nat)
    (hc : detect_conflicts s base
      (_normalize_role_deltas v.role_deltas v.decisions_delta) = []) :
    push_transaction s v base = push_transaction s v none := by
  have hnone : detect_conflicts s none
      (_normalize_role_deltas v.role_deltas v.decisions_delta) = [] := rfl
  simp only [push_transaction]
  rw [hc, hnone]

/-- C10: a push whose stamp carries `memory_version ≥ V` (including
values above anything that has ever existed) finds no conflicts for any
role deltas, and the whole push — response and resulting state — equals
the forced push with a null `context_stamp`. -/
theorem high_base_forced_push (s : EngineState) (a : PushArgs) (b : Int)
    (hb : (s.memory_version : Int) ≤ b) :
    (∀ rd, detect_conflicts s (some b.toNat) rd = []) ∧
    session_sync_push s { a with context_stamp := .stamp (some b) } =
      session_sync_push s { a with context_stamp := .null } := by
  have hbn : s.memory_version ≤ b.toNat := by omega
  have hb0 : ¬ (b < 0) := by omega
  refine ⟨fun rd => detect_conflicts_high_base s b.toNat hbn rd, ?_⟩
  have hvcs : _validate_context_stamp (.stamp (some b)) =
      _validate_context_stamp .null := by
    have h2 : _validate_context_stamp (.stamp (some b)) =
        if b < 0 then .error { error_code := "INVALID_CONTEXT_STAMP" }
        else .ok () := rfl
    rw [h2, if_neg hb0]
    rfl
  have hcong := validate_push_payload_stamp_congr a
    (.stamp (some b)) .null hvcs
  rcases hval : validate_push_payload
      { a with context_stamp := ContextStamp.null } with e | v
  · rw [hval] at hcong
    rw [session_sync_push_val_error _ _ e hcong,
      session_sync_push_val_error _ _ e hval]
  · rw [hval] at hcong
    rw [session_sync_push_validated _ _ _ hcong,
      session_sync_push_validated _ _ _ hval]
    have hvs : v.context_stamp = ContextStamp.null :=
      validate_push_payload_keeps_stamp _ v hval
    have hp1 : parse_context_stamp
        (({ v with context_stamp := ContextStamp.stamp (some b) }
          : PushArgs).context_stamp) = .ok (some b.toNat) := by
      have h2 : parse_context_stamp (ContextStamp.stamp (some b)) =
          if b < 0 then .error { error_code := "INVALID_CONTEXT_STAMP" }
          else .ok (some b.toNat) := rfl
      rw [show (({ v with context_stamp := ContextStamp.stamp (some b) }
          : PushArgs).context_stamp) = ContextStamp.stamp (some b) from rfl,
        h2, if_neg hb0]
    have hp2 : parse_context_stamp v.context_stamp = .ok none := by
      rw [hvs]
      exact rfl
    rw [push_after_validate_parsed s _ _ (some b.toNat) hp1,
      push_after_validate_parsed s _ _ none hp2]
    rcases hws : resolve_project_workspace s a.workspace with e | s1
    · rw [push_after_parse_ws_error s
          { a with context_stamp := ContextStamp.stamp (some b) }
          { v with context_stamp := ContextStamp.stamp (some b) }
          (some b.toNat) e hws,
        push_after_parse_ws_error s
          { a with context_stamp := ContextStamp.null }
          v none e hws]
    · rw [push_after_parse_ws_ok s
          { a with context_stamp := ContextStamp.stamp (some b) }
          { v with context_stamp := ContextStamp.stamp (some b) }
          (some b.toNat) s1 hws,
        push_after_parse_ws_ok s
          { a with context_stamp := ContextStamp.null }
          v none s1 hws]
      rw [push_transaction_stamp_congr s1 v (.stamp (some b)) (some b.toNat)]
      obtain ⟨hmv1, -, -, -, -⟩ :=
        resolve_project_workspace_ok_fields s a.workspace s1 hws
      have hbn1 : s1.memory_version ≤ b.toNat := by rw [hmv1]; exact hbn
      rw [push_transaction_no_conflict_base s1 v (some b.toNat)
        (detect_conflicts_high_base s1 b.toNat hbn1 _)]

theorem high_base_forced_push_witness :
    ((sample_history_state.memory_version : Int) ≤ 5) ∧
    ((∀ rd, detect_conflicts sample_history_state (some (5 : Int).toNat) rd = []) ∧
    session_sync_push sample_history_state
        { sample_push_args with context_stamp := .stamp (some 5) } =
      session_sync_push sample_history_state
        { sample_push_args with context_stamp := .null }) :=
  ⟨by decide, high_base_forced_push sample_history_state sample_push_args 5 (by decide)⟩

end MemoryHub
